import Mathlib

/-
Shallow embedding of pandapower's pypower-based power flow runner
(src/pandapower/pf/runpf_pypower.py) and proofs about it.

Numeric columns of the bus/gen matrices (PD, QD, QG, QMAX, QMIN, PG, ...)
are modelled as exact integers: the embedded fragment applies only
addition, subtraction and order comparisons to them, so every algebraic
and control-flow property proved here is uniform in the ordered-ring
carrier, and floating-point rounding is outside the scope of the claims.
The boolean column GEN_STATUS > 0 is a Bool; the BUS_TYPE column is a Nat
with the pandapower constants PQ = 1, PV = 2, REF = 3.  The external solver kernels, admittance builders and the
result materializer are collaborators outside this module's code; they are
taken as function parameters, and repository code that is referenced but
not part of this module (bustypes) is modelled from its documented
contract, marked `Modelled from the spec:`.
-/

namespace PandapowerPF

/- Part 1: the data model and the embedded operations. -/


/-- Bus type constant PQ (pandapower.idx_bus). -/
def PQ : Nat := 1

/-- Bus type constant PV (pandapower.idx_bus). -/
def PV : Nat := 2

/-- Bus type constant REF (pandapower.idx_bus). -/
def REF : Nat := 3

/-- One row of the bus matrix: BUS_TYPE, PD, QD, VM, VA. -/
structure Bus where
  btype : Nat
  pd : ℤ
  qd : ℤ
  vm : ℤ
  va : ℤ
deriving DecidableEq, Repr

instance : Inhabited Bus := ⟨⟨0, 0, 0, 0, 0⟩⟩

/-- One row of the gen matrix: GEN_BUS, PG, QG, QMAX, QMIN, GEN_STATUS > 0. -/
structure Gen where
  bus : Nat
  pg : ℤ
  qg : ℤ
  qmax : ℤ
  qmin : ℤ
  status : Bool
deriving DecidableEq, Repr

instance : Inhabited Gen := ⟨⟨0, 0, 0, 0, 0, false⟩⟩

/-- One row of the branch matrix (endpoints plus an electrical parameter);
read-only for this module. -/
structure Branch where
  fbus : Nat
  tbus : Nat
  x : ℤ
deriving DecidableEq, Repr

/-- Read a bus row by position, like `bus[i]` on a numpy array. -/
def bget (l : List Bus) (i : Nat) : Bus := l.getD i default

/-- Read a gen row by position, like `gen[i]` on a numpy array. -/
def gget (l : List Gen) (i : Nat) : Gen := l.getD i default

/-- In-place update of one row, like `a[i] = f(a[i])` on a numpy array
(out-of-range indices leave the array unchanged). -/
def lmodify {α : Type} (f : α → α) : Nat → List α → List α
  | _, [] => []
  | 0, a :: as => f a :: as
  | n + 1, a :: as => a :: lmodify f n as

/-- Local state of `_run_ac_pf_with_qlims_enforced`: the bus/gen arrays,
the current ref/pv/pq bus index partition, the `fixedQg` vector of binding
reactive limits and the cumulative `limited` list of converted gens. -/
structure LoopState where
  buses : List Bus
  gens : List Gen
  ref : List Nat
  pv : List Nat
  pq : List Nat
  fixedQg : Nat → ℤ
  limited : List Nat

/-- Errors the Python code can raise while running: reading an unbound
local (`UnboundLocalError`), a numpy fancy-indexing `IndexError`, the
unsupported-algorithm `ValueError` of `_call_power_flow_function`, and the
multiple-slack `ValueError` of the Q-limit loop.  The multi-slack error
carries the loop state at the moment of the raise: the numpy arrays are
mutated in place, so the mutations performed before the raise survive it. -/
inductive PFErr where
  | unboundLocal
  | indexError
  | unsupportedAlg
  | multiSlack (s : LoopState)

/-- Modelled from the spec: `bustypes` (pandapower.pf.bustypes is not under
src/); per the spec the loop recomputes the ref/pv/pq partition from the
updated bus types. -/
def bustypes (buses : List Bus) (_gens : List Gen) : List Nat × List Nat × List Nat :=
  ((List.range buses.length).filter (fun b => (bget buses b).btype == REF),
   (List.range buses.length).filter (fun b => (bget buses b).btype == PV),
   (List.range buses.length).filter (fun b => (bget buses b).btype == PQ))

/-- `mx`/`mn` of the loop body: indices of in-service gens with
`QG > QMAX`, respectively `QG < QMIN` (numpy `find` returns them in
ascending index order). -/
def violations (gens : List Gen) : List Nat × List Nat :=
  ((List.range gens.length).filter
      (fun i => (gget gens i).status && decide ((gget gens i).qmax < (gget gens i).qg)),
   (List.range gens.length).filter
      (fun i => (gget gens i).status && decide ((gget gens i).qg < (gget gens i).qmin)))

/-- Number of Q-limit violations (`len(mx) + len(mn)`). -/
def nviol (gens : List Gen) : Nat :=
  (violations gens).1.length + (violations gens).2.length

/-- Index of the first occurrence of the maximum, running tail. -/
def argmaxFrom : Nat → Nat → ℤ → List ℤ → Nat
  | _, best, _, [] => best
  | i, best, bv, v :: vs =>
      if bv < v then argmaxFrom (i + 1) i v vs else argmaxFrom (i + 1) best bv vs

/-- numpy `argmax`: index of the first occurrence of the maximum. -/
def argmax : List ℤ → Nat
  | [] => 0
  | v :: vs => argmaxFrom 1 0 v vs

/-- Over-limit violation magnitude `Qg - Qmax` of gen `i`. -/
def qgOver (gens : List Gen) (i : Nat) : ℤ := (gget gens i).qg - (gget gens i).qmax

/-- Under-limit violation magnitude `Qmin - Qg` of gen `i`. -/
def qgUnder (gens : List Gen) (i : Nat) : ℤ := (gget gens i).qmin - (gget gens i).qg

/-- The `qlim == 2` (fix largest violation) selection of the loop body:
`k = argmax(r_[gen[mx,QG]-gen[mx,QMAX], gen[mn,QMIN]-gen[mn,QG]])`,
then `if k > len(mx): mn = mn[k-len(mx)]; mx = [] else: mx = mx[k]; mn = []`.
An out-of-range numpy index raises `IndexError`. -/
def selectWorst (gens : List Gen) (mx mn : List Nat) : Except PFErr (List Nat × List Nat) :=
  if mx.length < argmax (mx.map (qgOver gens) ++ mn.map (qgUnder gens)) then
    match mn.get? (argmax (mx.map (qgOver gens) ++ mn.map (qgUnder gens)) - mx.length) with
    | some j => Except.ok ([], [j])
    | none => Except.error PFErr.indexError
  else
    match mx.get? (argmax (mx.map (qgOver gens) ++ mn.map (qgUnder gens))) with
    | some j => Except.ok ([j], [])
    | none => Except.error PFErr.indexError

/-- Final `fixedQg` values after `fixedQg[mx] = gen[mx,QMAX]` followed by
`fixedQg[mn] = gen[mn,QMIN]` (the later write wins). -/
def bindingQ (gens : List Gen) (mx1 mn1 : List Nat) (fixedQg : Nat → ℤ) : Nat → ℤ :=
  fun i =>
    if i ∈ mn1 then (gget gens i).qmin
    else if i ∈ mx1 then (gget gens i).qmax
    else fixedQg i

/-- `gen[sel, QG] = fq[sel]` (also used for the restoration write
`gen[limited, QG] = fixedQg[limited]`). -/
def setQg (fq : Nat → ℤ) (sel : List Nat) (gens : List Gen) : List Gen :=
  sel.foldl (fun gs i => lmodify (fun g => { g with qg := fq i }) i gs) gens

/-- Body of `for i in mx:` — turn gen `i` off and subtract its output from
its bus's demand: `gen[i,GEN_STATUS] = 0; bus[bi,[PD,QD]] -= gen[i,[PG,QG]]`. -/
def convertOne (bg : List Bus × List Gen) (i : Nat) : List Bus × List Gen :=
  let gens1 := lmodify (fun g => { g with status := false }) i bg.2
  let g := gget gens1 i
  (lmodify (fun b => { b with pd := b.pd - g.pg, qd := b.qd - g.qg }) g.bus bg.1, gens1)

/-- `bus[gen[sel, GEN_BUS], BUS_TYPE] = PQ`. -/
def pqFold (sel : List Nat) (gens : List Gen) (buses : List Bus) : List Bus :=
  sel.foldl (fun bs i => lmodify (fun b => { b with btype := PQ }) ((gget gens i).bus) bs) buses

/-- Gens after `gen[mx, QG] = fixedQg[mx]` on the combined selection
`mx1 ++ mn1` (with the `fixedQg` values just recorded). -/
def convGens (s : LoopState) (mx1 mn1 : List Nat) : List Gen :=
  setQg (bindingQ s.gens mx1 mn1 s.fixedQg) (mx1 ++ mn1) s.gens

/-- Bus/gen arrays after the `for i in mx:` conversion loop: each selected
gen turned off with its output subtracted from its bus's load. -/
def convBG (s : LoopState) (mx1 mn1 : List Nat) : List Bus × List Gen :=
  List.foldl convertOne (s.buses, convGens s mx1 mn1) (mx1 ++ mn1)

/-- The conversion block of the loop body applied to the selected gens
`mx1 ++ mn1`: record the binding values in `fixedQg`, set `QG` to them,
turn the gens off and adjust their buses' loads, then — guarded by the
multiple-slack check — reclassify their buses to PQ, recompute the
ref/pv/pq partition and extend `limited`. -/
def convertCore (s : LoopState) (mx1 mn1 : List Nat) : Except PFErr LoopState :=
  if 1 < s.ref.length ∧ ((mx1 ++ mn1).any (fun i =>
       (bget (convBG s mx1 mn1).1 (gget (convBG s mx1 mn1).2 i).bus).btype == REF)) = true then
    Except.error (PFErr.multiSlack ⟨(convBG s mx1 mn1).1, (convBG s mx1 mn1).2,
      s.ref, s.pv, s.pq, bindingQ s.gens mx1 mn1 s.fixedQg, s.limited⟩)
  else
    Except.ok ⟨pqFold (mx1 ++ mn1) (convBG s mx1 mn1).2 (convBG s mx1 mn1).1,
      (convBG s mx1 mn1).2,
      (bustypes (pqFold (mx1 ++ mn1) (convBG s mx1 mn1).2 (convBG s mx1 mn1).1)
        (convBG s mx1 mn1).2).1,
      (bustypes (pqFold (mx1 ++ mn1) (convBG s mx1 mn1).2 (convBG s mx1 mn1).1)
        (convBG s mx1 mn1).2).2.1,
      (bustypes (pqFold (mx1 ++ mn1) (convBG s mx1 mn1).2 (convBG s mx1 mn1).1)
        (convBG s mx1 mn1).2).2.2,
      bindingQ s.gens mx1 mn1 s.fixedQg, s.limited ++ (mx1 ++ mn1)⟩

/-- One full CONVERTING pass: the `qlim == 2` selection (worst violator
only) if configured, then the conversion block. -/
def convertPass (qlim : Nat) (s : LoopState) (mx0 mn0 : List Nat) : Except PFErr LoopState :=
  match (if qlim = 2 then selectWorst s.gens mx0 mn0 else Except.ok (mx0, mn0)) with
  | Except.error e => Except.error e
  | Except.ok (mx1, mn1) => convertCore s mx1 mn1

/-- Effect of one `_run_ac_pf_without_qlims_enforced` call on the loop
state.  The step function abstracts the external collaborators it is built
from (admittance fetch, injection computation, solver kernel, `pfsoln`):
it updates the bus/gen arrays and reports convergence, and it does not
touch the loop-local partition, `fixedQg` or `limited`. -/
def stepState (step : List Bus × List Gen → (List Bus × List Gen) × Bool)
    (s : LoopState) : LoopState :=
  { s with buses := (step (s.buses, s.gens)).1.1, gens := (step (s.buses, s.gens)).1.2 }

/-- The `while True:` loop of `_run_ac_pf_with_qlims_enforced`, with fuel
(the source imposes no iteration bound; `none` means the fuel ran out
before the loop exited).  Solve, look for violations; on violations with
no PV bus left break with `success = 0`; otherwise convert and repeat;
with no violations break with the step's success flag. -/
def qlimLoop (step : List Bus × List Gen → (List Bus × List Gen) × Bool) (qlim : Nat) :
    Nat → LoopState → Except PFErr (Option (LoopState × Bool))
  | 0, _ => Except.ok none
  | fuel + 1, s =>
    if nviol (stepState step s).gens ≠ 0 then
      if (stepState step s).pv.length = 0 then Except.ok (some (stepState step s, false))
      else Except.bind (convertPass qlim (stepState step s)
             (violations (stepState step s).gens).1 (violations (stepState step s).gens).2)
             (qlimLoop step qlim fuel)
    else Except.ok (some (stepState step s, (step (s.buses, s.gens)).2))

/-- Body of `for i in limited:` in the restoration block — re-add the gen's
output to its bus's load and turn the gen back on. -/
def restoreOne (bg : List Bus × List Gen) (i : Nat) : List Bus × List Gen :=
  let g := gget bg.2 i
  (lmodify (fun b => { b with pd := b.pd + g.pg, qd := b.qd + g.qg }) g.bus bg.1,
   lmodify (fun g0 => { g0 with status := true }) i bg.2)

/-- The post-loop restoration block: if any gens were limited, restore
their `QG` values from `fixedQg` and then, gen by gen, re-adjust the loads
and switch the gens back on. -/
def restoreAll (s : LoopState) : LoopState :=
  if s.limited.length = 0 then s
  else
    let gens1 := setQg s.fixedQg s.limited s.gens
    let bg := s.limited.foldl restoreOne (s.buses, gens1)
    { s with buses := bg.1, gens := bg.2 }

/-- `_run_ac_pf_with_qlims_enforced`: initial partition from the ppci
variables, `fixedQg = zeros`, empty `limited`, then the loop followed by
the restoration block. -/
def run_ac_pf_with_qlims_enforced
    (step : List Bus × List Gen → (List Bus × List Gen) × Bool)
    (qlim fuel : Nat) (buses : List Bus) (gens : List Gen) :
    Except PFErr (Option (LoopState × Bool)) :=
  (qlimLoop step qlim fuel
      ⟨buses, gens, (bustypes buses gens).1, (bustypes buses gens).2.1,
       (bustypes buses gens).2.2, fun _ => 0, []⟩).map
    (fun r => r.map (fun sb => (restoreAll sb.1, sb.2)))

/-- True on `Except.error (PFErr.multiSlack _)`. -/
def isMultiSlack {α : Type} : Except PFErr α → Bool
  | Except.error (PFErr.multiSlack _) => true
  | _ => false

/-- True on `Except.ok _`. -/
def isOk {α : Type} : Except PFErr α → Bool
  | Except.ok _ => true
  | _ => false

/-- The state carried by a multi-slack error, else the default. -/
def msState (e : Except PFErr LoopState) (dflt : LoopState) : LoopState :=
  match e with
  | Except.error (PFErr.multiSlack s) => s
  | _ => dflt

/-- The state of a successful result, else the default. -/
def okState (e : Except PFErr LoopState) (dflt : LoopState) : LoopState :=
  match e with
  | Except.ok s => s
  | _ => dflt

/-- True on a run result `Except.ok (some _)`. -/
def isOkSome : Except PFErr (Option (LoopState × Bool)) → Bool
  | Except.ok (some _) => true
  | _ => false

/-- Bus array of a run result `Except.ok (some _)`, else the default. -/
def finalBuses (r : Except PFErr (Option (LoopState × Bool))) (dflt : List Bus) : List Bus :=
  match r with
  | Except.ok (some p) => p.1.buses
  | _ => dflt

/-- Observable outcome of a run: final bus and gen arrays and the success
flag, `none` on an exception or if the fuel ran out. -/
def runState : Except PFErr (Option (LoopState × Bool)) → Option (List Bus × List Gen × Bool)
  | Except.ok (some p) => some (p.1.buses, p.1.gens, p.2)
  | _ => none

/-- A sparse matrix, abstracted to its entry list; `entries = []` models a
numpy array with `size == 0`. -/
structure Mat where
  entries : List ℤ
deriving DecidableEq, Repr

/-- The `ppci["internal"]` store of admittance matrices. -/
structure YInternal where
  ybus : Mat
  yf : Mat
  yt : Mat
deriving DecidableEq, Repr

/-- The ppci record as far as this module reads it. -/
structure PPCI where
  buses : List Bus
  gens : List Gen
  branches : List Branch
  internal : YInternal
deriving DecidableEq, Repr

/-- `_get_Y_bus`: reuse the stored triple when recycling is on and the
stored Ybus is non-empty, otherwise build fresh matrices with the external
`makeYbus` and store them when recycling is on. -/
def get_Y_bus (ppci : PPCI) (recycleYbus : Bool)
    (makeYbus : ℤ → List Bus → List Branch → Mat × Mat × Mat)
    (baseMVA : ℤ) (bus : List Bus) (branch : List Branch) : PPCI × Mat × Mat × Mat :=
  if recycleYbus = true ∧ ppci.internal.ybus.entries ≠ [] then
    (ppci, ppci.internal.ybus, ppci.internal.yf, ppci.internal.yt)
  else
    let t := makeYbus baseMVA bus branch
    let ppci2 := if recycleYbus then { ppci with internal := ⟨t.1, t.2.1, t.2.2⟩ } else ppci
    (ppci2, t.1, t.2.1, t.2.2)

/-- External calls `_call_power_flow_function` can make, in order. -/
inductive Kernel where
  | makeB
  | fdpf
  | gausspf
deriving DecidableEq, Repr

/-- `_call_power_flow_function`: `alg` 2/3 build the decoupled B pair and
run `fdpf`; `alg` 4 runs `gausspf`; anything else (including 1, the
deleted `nr`) raises the unsupported-algorithm ValueError.  The second
component records which external kernels were invoked, in order. -/
def call_power_flow_function (alg : Nat)
    (makeB : ℤ → List Bus → List Branch → Nat → Mat × Mat)
    (fdpf : Mat → List ℤ → List ℤ → Mat → Mat → List Nat → List Nat → List Nat → List ℤ × Bool)
    (gausspf : Mat → List ℤ → List ℤ → List Nat → List Nat → List Nat → List ℤ × Bool)
    (baseMVA : ℤ) (bus : List Bus) (branch : List Branch)
    (Ybus : Mat) (Sbus V0 : List ℤ) (ref pv pq : List Nat) :
    Except PFErr (List ℤ × Bool) × List Kernel :=
  if alg = 2 ∨ alg = 3 then
    let bb := makeB baseMVA bus branch alg
    let r := fdpf Ybus Sbus V0 bb.1 bb.2 ref pv pq
    (Except.ok r, [Kernel.makeB, Kernel.fdpf])
  else if alg = 4 then
    let r := gausspf Ybus Sbus V0 ref pv pq
    (Except.ok r, [Kernel.gausspf])
  else (Except.error PFErr.unsupportedAlg, [])

/-- `_runpf_pypower`: the AC branch binds the locals `bus`, `gen`,
`branch` from `_ac_runpf`; the DC branch only runs `_run_dc_pf` and sets
`success = True`.  Both fall through to
`_store_results_from_pf_in_ppci(ppci, bus, gen, branch, success, None, et)`,
whose argument evaluation reads those locals — reading them unbound raises
`UnboundLocalError`.  `_run_dc_pf`, `_ac_runpf`'s solve and the result
store are external collaborators passed as functions. -/
def runpf_pypower
    (run_dc_pf : PPCI → PPCI)
    (ac_runpf : PPCI → PPCI × Bool × List Bus × List Gen × List Branch)
    (store_results : PPCI → List Bus → List Gen → List Branch → Bool → PPCI)
    (ac init_va_degree_dc : Bool) (ppci : PPCI) : Except PFErr (PPCI × Bool) :=
  let st :=
    if ac then
      let ppciA := if init_va_degree_dc then run_dc_pf ppci else ppci
      let q := ac_runpf ppciA
      (q.1, q.2.1, some q.2.2.1, some q.2.2.2.1, some q.2.2.2.2)
    else
      (run_dc_pf ppci, true, (none : Option (List Bus)), (none : Option (List Gen)),
       (none : Option (List Branch)))
  match st.2.2.1, st.2.2.2.1, st.2.2.2.2 with
  | some b, some g, some br => Except.ok (store_results st.1 b g br st.2.1, st.2.1)
  | _, _, _ => Except.error PFErr.unboundLocal

/- Pointwise characterizations of the in-place array updates. -/

/-- Gens after `gen[sel, GEN_STATUS] = 0`, element by element. -/
def offFold (sel : List Nat) (gens : List Gen) : List Gen :=
  sel.foldl (fun gs i => lmodify (fun g => { g with status := false }) i gs) gens

/-- Gens after `gen[sel, GEN_STATUS] = 1`, element by element. -/
def onFold (sel : List Nat) (gens : List Gen) : List Gen :=
  sel.foldl (fun gs i => lmodify (fun g0 => { g0 with status := true }) i gs) gens

/-- Total active output of the gens of `sel` sitting on bus `b`
(with multiplicity). -/
def pdSum (sel : List Nat) (gens : List Gen) (b : Nat) : ℤ :=
  ((sel.filter (fun i => (gget gens i).bus == b)).map (fun i => (gget gens i).pg)).sum

/-- Total reactive output of the gens of `sel` sitting on bus `b`
(with multiplicity). -/
def qdSum (sel : List Nat) (gens : List Gen) (b : Nat) : ℤ :=
  ((sel.filter (fun i => (gget gens i).bus == b)).map (fun i => (gget gens i).qg)).sum

/-- Total `fixedQg` contribution of the gens of `sel` on bus `b`. -/
def fqSum (sel : List Nat) (gens : List Gen) (fq : Nat → ℤ) (b : Nat) : ℤ :=
  ((sel.filter (fun i => (gget gens i).bus == b)).map fq).sum

/- Concrete fixtures: a two-bus network (slack bus 0 with gen 1, PV bus 1
with gen 0, Qmax = 50 on gen 0) and concrete solver steps. -/

/-- Two buses: slack (REF) bus 0 with load (1, 1), PV bus 1 with load (2, 3). -/
def busesW : List Bus := [⟨REF, 1, 1, 1, 0⟩, ⟨PV, 2, 3, 1, 0⟩]

/-- Two gens: gen 0 on PV bus 1 with bounds [-50, 50], gen 1 on the slack
bus with bounds [-100, 100]. -/
def gensW : List Gen := [⟨1, 10, 0, 50, -50, true⟩, ⟨0, 5, 0, 100, -100, true⟩]

/-- A solver step that, while gen 0 is in service, solves to `Qg0 = 70`
(violating `Qmax = 50`) and reports non-convergence; after gen 0 has been
converted it changes nothing and reports convergence. -/
def stepC2 (bg : List Bus × List Gen) : (List Bus × List Gen) × Bool :=
  if (gget bg.2 0).status then
    ((bg.1, lmodify (fun g => { g with qg := 70 }) 0 bg.2), false)
  else (bg, true)

/-- A converging solver step that first drives gen 0 to `Qg0 = 70`
(violating `Qmax = 50`); once gen 0 has been converted it drives the slack
gen 1 to `Qg1 = 999` (violating `Qmax = 100`). -/
def stepC4 (bg : List Bus × List Gen) : (List Bus × List Gen) × Bool :=
  if (gget bg.2 0).status then
    ((bg.1, lmodify (fun g => { g with qg := 70 }) 0 bg.2), true)
  else
    ((bg.1, lmodify (fun g => { g with qg := 999 }) 1 bg.2), true)

/-- The identity solver step: changes nothing, reports convergence. -/
def stepId (bg : List Bus × List Gen) : (List Bus × List Gen) × Bool := (bg, true)

/-- One in-service gen with `Qg = -80 < Qmin = -50` — only under-limit
violations, so `mx = []`, `mn = [0]`, and the worst violator is the first
under-limit gen. -/
def gensC3 : List Gen := [⟨1, 2, -80, 50, -50, true⟩]

/-- Loop state around `gensC3`, entering the CONVERTING block. -/
def sC3 : LoopState := ⟨busesW, gensC3, [0], [1], [], fun _ => 0, []⟩

/-- Stored triple fixture for the C7 witness. -/
def yintW : YInternal := ⟨⟨[5]⟩, ⟨[6]⟩, ⟨[7]⟩⟩

/-- A ppci fixture whose stored Ybus is non-empty. -/
def ppciW : PPCI := ⟨busesW, gensW, [], yintW⟩

/-- A concrete admittance builder. -/
def mkW : ℤ → List Bus → List Branch → Mat × Mat × Mat := fun _ _ _ => (⟨[1]⟩, ⟨[2]⟩, ⟨[3]⟩)

/-- A second, different concrete admittance builder. -/
def mkW2 : ℤ → List Bus → List Branch → Mat × Mat × Mat := fun _ _ _ => (⟨[9]⟩, ⟨[9]⟩, ⟨[9]⟩)

/-- A concrete B-pair builder for the C8 witness. -/
def makeBW : ℤ → List Bus → List Branch → Nat → Mat × Mat := fun _ _ _ _ => (⟨[]⟩, ⟨[]⟩)

/-- A concrete fast-decoupled kernel for the C8 witness. -/
def fdpfW : Mat → List ℤ → List ℤ → Mat → Mat → List Nat → List Nat → List Nat →
    List ℤ × Bool := fun _ _ v _ _ _ _ _ => (v, true)

/-- A concrete Gauss-Seidel kernel for the C8 witness. -/
def gausspfW : Mat → List ℤ → List ℤ → List Nat → List Nat → List Nat → List ℤ × Bool :=
  fun _ _ v _ _ _ => (v, true)

/-- Initial loop state over the two-bus fixture. -/
def sC2w : LoopState := ⟨busesW, gensW, [0], [1], [], fun _ => 0, []⟩

/-- Buses after pass 1 of the C4 scenario: bus 1 already converted to PQ
with its demand offset by gen 0's output. -/
def busesC4w : List Bus := [⟨REF, 1, 1, 1, 0⟩, ⟨PQ, -8, -47, 1, 0⟩]

/-- Gens after pass 1 of the C4 scenario: gen 0 limited (off, `Qg = 50`),
slack gen 1 violating `Qmax = 100` with `Qg = 999`. -/
def gensC4w : List Gen := [⟨1, 10, 50, 50, -50, false⟩, ⟨0, 5, 999, 100, -100, true⟩]

/-- Loop state after pass 1 of the C4 scenario: gen 0 in `limited`, no PV
bus left. -/
def sC4w : LoopState := ⟨busesC4w, gensC4w, [0], [], [1], fun _ => 50, [0]⟩

/-- Two slack buses, each carrying a gen; gen 0 violates `Qmax = 50` with
`Qg = 70`. -/
def busesMSw : List Bus := [⟨REF, 1, 1, 1, 0⟩, ⟨REF, 1, 1, 1, 0⟩]

/-- Gens on the two slack buses; gen 0 violating. -/
def gensMSw : List Gen := [⟨0, 4, 70, 50, -50, true⟩, ⟨1, 3, 0, 50, -50, true⟩]

/-- Loop state over the two-slack fixture (`ref = [0, 1]`). -/
def sMSw : LoopState := ⟨busesMSw, gensMSw, [0, 1], [], [], fun _ => 0, []⟩

/-- Single-slack fixture: one REF bus (with violating gen 0) and one PQ bus. -/
def busesC10w : List Bus := [⟨REF, 1, 1, 1, 0⟩, ⟨PQ, 0, 0, 1, 0⟩]

/-- The one gen of the single-slack fixture, on the slack bus, violating
`Qmax = 50` with `Qg = 70`. -/
def gensC10w : List Gen := [⟨0, 4, 70, 50, -50, true⟩]

/-- Loop state over the single-slack fixture (`ref = [0]`). -/
def sC10w : LoopState := ⟨busesC10w, gensC10w, [0], [], [1], fun _ => 0, []⟩

/-- Contract of the solve step (spec §4.3/§6): the post-processing updates
only electrical solve quantities, so every bus's PD/QD demand entries are
left unchanged. -/
def stepPreservesDemand (step : List Bus × List Gen → (List Bus × List Gen) × Bool) : Prop :=
  ∀ (bg : List Bus × List Gen) (b : Nat),
    (bget (step bg).1.1 b).pd = (bget bg.1 b).pd ∧
    (bget (step bg).1.1 b).qd = (bget bg.1 b).qd

/-- Contract of the solve step: array shapes and the gen→bus assignment
are fixed data, not solve outputs. -/
def stepPreservesShape (step : List Bus × List Gen → (List Bus × List Gen) × Bool) : Prop :=
  ∀ bg : List Bus × List Gen,
    ((step bg).1.1.length = bg.1.length ∧ (step bg).1.2.length = bg.2.length) ∧
    ∀ i, (gget (step bg).1.2 i).bus = (gget bg.2 i).bus

/-- Contract of the solve step: an out-of-service gen is not part of the
solve, so its active output and its off status are left unchanged. -/
def stepPreservesOffGens (step : List Bus × List Gen → (List Bus × List Gen) × Bool) : Prop :=
  ∀ (bg : List Bus × List Gen) (i : Nat), (gget bg.2 i).status = false →
    (gget (step bg).1.2 i).pg = (gget bg.2 i).pg ∧
    (gget (step bg).1.2 i).status = false

/-- Loop invariant of `_run_ac_pf_with_qlims_enforced` relative to the
initial bus array `buses0` and gen count `ng0`: shapes are stable, every
limited gen is off and in range, and each bus's demand is its original
demand minus the (still recorded) outputs of the limited gens on it. -/
def Inv (buses0 : List Bus) (ng0 : Nat) (s : LoopState) : Prop :=
  s.buses.length = buses0.length ∧
  s.gens.length = ng0 ∧
  (∀ i, i < ng0 → (gget s.gens i).bus < s.buses.length) ∧
  (∀ i ∈ s.limited, i < ng0) ∧
  (∀ i ∈ s.limited, (gget s.gens i).status = false) ∧
  (∀ b, (bget s.buses b).pd + pdSum s.limited s.gens b = (bget buses0 b).pd) ∧
  (∀ b, (bget s.buses b).qd + fqSum s.limited s.gens s.fixedQg b = (bget buses0 b).qd)

/- Part 2: lemmas and the claim theorems. -/

theorem lmodify_length {α : Type} (f : α → α) :
    ∀ (i : Nat) (l : List α), (lmodify f i l).length = l.length := by
  intro i l
  induction l generalizing i with
  | nil => cases i <;> rfl
  | cons a as ih => cases i with
    | zero => rfl
    | succ n => simpa [lmodify] using ih n

theorem lmodify_oor {α : Type} (f : α → α) :
    ∀ (i : Nat) (l : List α), l.length ≤ i → lmodify f i l = l := by
  intro i l
  induction l generalizing i with
  | nil => cases i <;> intro _ <;> rfl
  | cons a as ih =>
    cases i with
    | zero => intro h; exact absurd h (by simp)
    | succ n => intro h; simp only [lmodify]; rw [ih n (by simpa using h)]

theorem getD_lmodify_self {α : Type} (f : α → α) (d : α) :
    ∀ (i : Nat) (l : List α), i < l.length →
      (lmodify f i l).getD i d = f (l.getD i d) := by
  intro i l
  induction l generalizing i with
  | nil => intro h; simp at h
  | cons a as ih =>
    cases i with
    | zero => intro _; rfl
    | succ n => intro h; simpa [lmodify] using ih n (by simpa using h)

theorem getD_lmodify_ne {α : Type} (f : α → α) (d : α) :
    ∀ (i j : Nat), i ≠ j → ∀ (l : List α),
      (lmodify f i l).getD j d = l.getD j d := by
  intro i j hij l
  induction l generalizing i j with
  | nil => cases i <;> rfl
  | cons a as ih =>
    cases i with
    | zero =>
      cases j with
      | zero => exact absurd rfl hij
      | succ m => rfl
    | succ n =>
      cases j with
      | zero => rfl
      | succ m => simpa [lmodify] using ih n m (fun h => hij (by rw [h]))

theorem getD_lmodify {α : Type} (f : α → α) (d : α) (i : Nat) (l : List α) (j : Nat) :
    (lmodify f i l).getD j d = if j = i ∧ j < l.length then f (l.getD j d) else l.getD j d := by
  by_cases hj : j = i
  · subst hj
    by_cases hl : j < l.length
    · rw [getD_lmodify_self f d j l hl, if_pos ⟨rfl, hl⟩]
    · rw [lmodify_oor f j l (le_of_not_lt hl), if_neg (fun hc => hl hc.2)]
  · rw [getD_lmodify_ne f d i j (fun h => hj h.symm) l, if_neg (fun hc => hj hc.1)]

theorem foldl_len {α : Type} (F : List α → Nat → List α)
    (hF : ∀ gs i, (F gs i).length = gs.length) :
    ∀ (sel : List Nat) (gs : List α), (sel.foldl F gs).length = gs.length := by
  intro sel
  induction sel with
  | nil => intro gs; rfl
  | cons i sel ih => intro gs; rw [List.foldl_cons, ih, hF]

theorem busExt {a b : Bus} (h1 : a.btype = b.btype) (h2 : a.pd = b.pd) (h3 : a.qd = b.qd)
    (h4 : a.vm = b.vm) (h5 : a.va = b.va) : a = b := by
  cases a; cases b; simp_all

theorem genExt {a b : Gen} (h1 : a.bus = b.bus) (h2 : a.pg = b.pg) (h3 : a.qg = b.qg)
    (h4 : a.qmax = b.qmax) (h5 : a.qmin = b.qmin) (h6 : a.status = b.status) : a = b := by
  cases a; cases b; simp_all

theorem pdSum_nil (gens : List Gen) (b : Nat) : pdSum [] gens b = 0 := rfl

theorem qdSum_nil (gens : List Gen) (b : Nat) : qdSum [] gens b = 0 := rfl

theorem pdSum_cons (i : Nat) (sel : List Nat) (gens : List Gen) (b : Nat) :
    pdSum (i :: sel) gens b
      = (if (gget gens i).bus = b then (gget gens i).pg else 0) + pdSum sel gens b := by
  by_cases h : (gget gens i).bus = b
  · simp [pdSum, List.filter_cons, h]
  · simp [pdSum, List.filter_cons, h]

theorem qdSum_cons (i : Nat) (sel : List Nat) (gens : List Gen) (b : Nat) :
    qdSum (i :: sel) gens b
      = (if (gget gens i).bus = b then (gget gens i).qg else 0) + qdSum sel gens b := by
  by_cases h : (gget gens i).bus = b
  · simp [qdSum, List.filter_cons, h]
  · simp [qdSum, List.filter_cons, h]

theorem pdSum_append (s1 s2 : List Nat) (gens : List Gen) (b : Nat) :
    pdSum (s1 ++ s2) gens b = pdSum s1 gens b + pdSum s2 gens b := by
  simp [pdSum, List.filter_append]

theorem qdSum_append (s1 s2 : List Nat) (gens : List Gen) (b : Nat) :
    qdSum (s1 ++ s2) gens b = qdSum s1 gens b + qdSum s2 gens b := by
  simp [qdSum, List.filter_append]

theorem pdSum_congr (sel : List Nat) (gensA gensB : List Gen)
    (h : ∀ i ∈ sel, (gget gensA i).bus = (gget gensB i).bus
          ∧ (gget gensA i).pg = (gget gensB i).pg) (b : Nat) :
    pdSum sel gensA b = pdSum sel gensB b := by
  induction sel with
  | nil => rfl
  | cons i sel ih =>
    have hi := h i (by simp)
    rw [pdSum_cons, pdSum_cons, hi.1, hi.2, ih (fun i' hmem => h i' (by simp [hmem]))]

theorem qdSum_congr (sel : List Nat) (gensA gensB : List Gen)
    (h : ∀ i ∈ sel, (gget gensA i).bus = (gget gensB i).bus
          ∧ (gget gensA i).qg = (gget gensB i).qg) (b : Nat) :
    qdSum sel gensA b = qdSum sel gensB b := by
  induction sel with
  | nil => rfl
  | cons i sel ih =>
    have hi := h i (by simp)
    rw [qdSum_cons, qdSum_cons, hi.1, hi.2, ih (fun i' hmem => h i' (by simp [hmem]))]

theorem setQg_gget (fq : Nat → ℤ) (sel : List Nat) :
    ∀ (gens : List Gen) (j : Nat),
      gget (setQg fq sel gens) j
        = if j ∈ sel ∧ j < gens.length then { gget gens j with qg := fq j } else gget gens j := by
  induction sel with
  | nil => intro gens j; simp [setQg]
  | cons i sel ih =>
    intro gens j
    have hstep : setQg fq (i :: sel) gens
        = setQg fq sel (lmodify (fun g => { g with qg := fq i }) i gens) := rfl
    rw [hstep, ih]
    have hlen : (lmodify (fun g => { g with qg := fq i }) i gens).length = gens.length :=
      lmodify_length _ _ _
    have hpt : gget (lmodify (fun g => { g with qg := fq i }) i gens) j
        = if j = i ∧ j < gens.length then { gget gens j with qg := fq i } else gget gens j :=
      getD_lmodify _ _ _ _ _
    rw [hlen]
    by_cases hmem : j ∈ sel
    · by_cases hl : j < gens.length
      · rw [if_pos ⟨hmem, hl⟩, if_pos ⟨by simp [hmem], hl⟩, hpt]
        by_cases hji : j = i ∧ j < gens.length
        · rw [if_pos hji]
        · rw [if_neg hji]
      · rw [if_neg (fun hc => hl hc.2), if_neg (fun hc => hl hc.2), hpt,
            if_neg (fun hc => hl hc.2)]
    · rw [if_neg (fun hc => hmem hc.1), hpt]
      by_cases hji : j = i
      · subst hji
        by_cases hl : j < gens.length
        · rw [if_pos ⟨rfl, hl⟩, if_pos ⟨by simp, hl⟩]
        · rw [if_neg (fun hc => hl hc.2), if_neg (fun hc => hl hc.2)]
      · rw [if_neg (fun hc => hji hc.1)]
        have hnc : ¬(j ∈ i :: sel ∧ j < gens.length) := by
          rintro ⟨hc1, -⟩
          rcases List.mem_cons.mp hc1 with h | h
          · exact hji h
          · exact hmem h
        rw [if_neg hnc]

theorem setQg_length (fq : Nat → ℤ) (sel : List Nat) (gens : List Gen) :
    (setQg fq sel gens).length = gens.length :=
  foldl_len _ (fun _ _ => lmodify_length _ _ _) sel gens

theorem offFold_gget (sel : List Nat) :
    ∀ (gens : List Gen) (j : Nat),
      gget (offFold sel gens) j
        = if j ∈ sel ∧ j < gens.length then { gget gens j with status := false }
          else gget gens j := by
  induction sel with
  | nil => intro gens j; simp [offFold]
  | cons i sel ih =>
    intro gens j
    have hstep : offFold (i :: sel) gens
        = offFold sel (lmodify (fun g => { g with status := false }) i gens) := rfl
    rw [hstep, ih]
    have hlen : (lmodify (fun g => { g with status := false }) i gens).length = gens.length :=
      lmodify_length _ _ _
    have hpt : gget (lmodify (fun g => { g with status := false }) i gens) j
        = if j = i ∧ j < gens.length then { gget gens j with status := false }
          else gget gens j := getD_lmodify _ _ _ _ _
    rw [hlen]
    by_cases hmem : j ∈ sel
    · by_cases hl : j < gens.length
      · rw [if_pos ⟨hmem, hl⟩, if_pos ⟨by simp [hmem], hl⟩, hpt]
        by_cases hji : j = i ∧ j < gens.length
        · rw [if_pos hji]
        · rw [if_neg hji]
      · rw [if_neg (fun hc => hl hc.2), if_neg (fun hc => hl hc.2), hpt,
            if_neg (fun hc => hl hc.2)]
    · rw [if_neg (fun hc => hmem hc.1), hpt]
      by_cases hji : j = i
      · subst hji
        by_cases hl : j < gens.length
        · rw [if_pos ⟨rfl, hl⟩, if_pos ⟨by simp, hl⟩]
        · rw [if_neg (fun hc => hl hc.2), if_neg (fun hc => hl hc.2)]
      · rw [if_neg (fun hc => hji hc.1)]
        have hnc : ¬(j ∈ i :: sel ∧ j < gens.length) := by
          rintro ⟨hc1, -⟩
          rcases List.mem_cons.mp hc1 with h | h
          · exact hji h
          · exact hmem h
        rw [if_neg hnc]

theorem onFold_gget (sel : List Nat) :
    ∀ (gens : List Gen) (j : Nat),
      gget (onFold sel gens) j
        = if j ∈ sel ∧ j < gens.length then { gget gens j with status := true }
          else gget gens j := by
  induction sel with
  | nil => intro gens j; simp [onFold]
  | cons i sel ih =>
    intro gens j
    have hstep : onFold (i :: sel) gens
        = onFold sel (lmodify (fun g0 => { g0 with status := true }) i gens) := rfl
    rw [hstep, ih]
    have hlen : (lmodify (fun g0 => { g0 with status := true }) i gens).length = gens.length :=
      lmodify_length _ _ _
    have hpt : gget (lmodify (fun g0 => { g0 with status := true }) i gens) j
        = if j = i ∧ j < gens.length then { gget gens j with status := true }
          else gget gens j := getD_lmodify _ _ _ _ _
    rw [hlen]
    by_cases hmem : j ∈ sel
    · by_cases hl : j < gens.length
      · rw [if_pos ⟨hmem, hl⟩, if_pos ⟨by simp [hmem], hl⟩, hpt]
        by_cases hji : j = i ∧ j < gens.length
        · rw [if_pos hji]
        · rw [if_neg hji]
      · rw [if_neg (fun hc => hl hc.2), if_neg (fun hc => hl hc.2), hpt,
            if_neg (fun hc => hl hc.2)]
    · rw [if_neg (fun hc => hmem hc.1), hpt]
      by_cases hji : j = i
      · subst hji
        by_cases hl : j < gens.length
        · rw [if_pos ⟨rfl, hl⟩, if_pos ⟨by simp, hl⟩]
        · rw [if_neg (fun hc => hl hc.2), if_neg (fun hc => hl hc.2)]
      · rw [if_neg (fun hc => hji hc.1)]
        have hnc : ¬(j ∈ i :: sel ∧ j < gens.length) := by
          rintro ⟨hc1, -⟩
          rcases List.mem_cons.mp hc1 with h | h
          · exact hji h
          · exact hmem h
        rw [if_neg hnc]

theorem offFold_length (sel : List Nat) (gens : List Gen) :
    (offFold sel gens).length = gens.length :=
  foldl_len _ (fun _ _ => lmodify_length _ _ _) sel gens

theorem onFold_length (sel : List Nat) (gens : List Gen) :
    (onFold sel gens).length = gens.length :=
  foldl_len _ (fun _ _ => lmodify_length _ _ _) sel gens

theorem fqSum_nil (gens : List Gen) (fq : Nat → ℤ) (b : Nat) : fqSum [] gens fq b = 0 := rfl

theorem fqSum_cons (i : Nat) (sel : List Nat) (gens : List Gen) (fq : Nat → ℤ) (b : Nat) :
    fqSum (i :: sel) gens fq b
      = (if (gget gens i).bus = b then fq i else 0) + fqSum sel gens fq b := by
  by_cases h : (gget gens i).bus = b
  · simp [fqSum, List.filter_cons, h]
  · simp [fqSum, List.filter_cons, h]

theorem fqSum_append (s1 s2 : List Nat) (gens : List Gen) (fq : Nat → ℤ) (b : Nat) :
    fqSum (s1 ++ s2) gens fq b = fqSum s1 gens fq b + fqSum s2 gens fq b := by
  simp [fqSum, List.filter_append]

theorem fqSum_congr (sel : List Nat) (gensA gensB : List Gen) (fqA fqB : Nat → ℤ)
    (hb : ∀ i ∈ sel, (gget gensA i).bus = (gget gensB i).bus)
    (hf : ∀ i ∈ sel, fqA i = fqB i) (b : Nat) :
    fqSum sel gensA fqA b = fqSum sel gensB fqB b := by
  induction sel with
  | nil => rfl
  | cons i sel ih =>
    rw [fqSum_cons, fqSum_cons, hb i (by simp), hf i (by simp),
        ih (fun i' hm => hb i' (by simp [hm])) (fun i' hm => hf i' (by simp [hm]))]

theorem qdSum_eq_fqSum (sel : List Nat) (gens : List Gen) (fq : Nat → ℤ) (b : Nat)
    (h : ∀ i ∈ sel, (gget gens i).qg = fq i) :
    qdSum sel gens b = fqSum sel gens fq b := by
  induction sel with
  | nil => rfl
  | cons i sel ih =>
    rw [qdSum_cons, fqSum_cons, h i (by simp), ih (fun i' hm => h i' (by simp [hm]))]

theorem gget_statusOff_fields (i : Nat) (gens : List Gen) (j : Nat) :
    (gget (lmodify (fun g => { g with status := false }) i gens) j).bus = (gget gens j).bus ∧
    (gget (lmodify (fun g => { g with status := false }) i gens) j).pg = (gget gens j).pg ∧
    (gget (lmodify (fun g => { g with status := false }) i gens) j).qg = (gget gens j).qg := by
  have hpt : gget (lmodify (fun g => { g with status := false }) i gens) j
      = if j = i ∧ j < gens.length then { gget gens j with status := false } else gget gens j :=
    getD_lmodify _ _ _ _ _
  rw [hpt]
  by_cases hc : j = i ∧ j < gens.length
  · rw [if_pos hc]; exact ⟨rfl, rfl, rfl⟩
  · rw [if_neg hc]; exact ⟨rfl, rfl, rfl⟩

theorem gget_statusOn_fields (i : Nat) (gens : List Gen) (j : Nat) :
    (gget (lmodify (fun g0 => { g0 with status := true }) i gens) j).bus = (gget gens j).bus ∧
    (gget (lmodify (fun g0 => { g0 with status := true }) i gens) j).pg = (gget gens j).pg ∧
    (gget (lmodify (fun g0 => { g0 with status := true }) i gens) j).qg = (gget gens j).qg := by
  have hpt : gget (lmodify (fun g0 => { g0 with status := true }) i gens) j
      = if j = i ∧ j < gens.length then { gget gens j with status := true } else gget gens j :=
    getD_lmodify _ _ _ _ _
  rw [hpt]
  by_cases hc : j = i ∧ j < gens.length
  · rw [if_pos hc]; exact ⟨rfl, rfl, rfl⟩
  · rw [if_neg hc]; exact ⟨rfl, rfl, rfl⟩

theorem gget_setQg_fields (fq : Nat → ℤ) (sel : List Nat) (gens : List Gen) (j : Nat) :
    (gget (setQg fq sel gens) j).bus = (gget gens j).bus ∧
    (gget (setQg fq sel gens) j).pg = (gget gens j).pg ∧
    (gget (setQg fq sel gens) j).status = (gget gens j).status := by
  rw [setQg_gget]
  by_cases hc : j ∈ sel ∧ j < gens.length
  · rw [if_pos hc]; exact ⟨rfl, rfl, rfl⟩
  · rw [if_neg hc]; exact ⟨rfl, rfl, rfl⟩

theorem convertOne_fst_bget (buses : List Bus) (gens : List Gen) (i : Nat)
    (hi : (gget gens i).bus < buses.length) (b : Nat) :
    bget (convertOne (buses, gens) i).1 b
      = if b = (gget gens i).bus then
          { bget buses b with pd := (bget buses b).pd - (gget gens i).pg,
                              qd := (bget buses b).qd - (gget gens i).qg }
        else bget buses b := by
  have hoff := gget_statusOff_fields i gens i
  have hco : (convertOne (buses, gens) i).1
      = lmodify (fun bb => { bb with
            pd := bb.pd - (gget (lmodify (fun g => { g with status := false }) i gens) i).pg,
            qd := bb.qd - (gget (lmodify (fun g => { g with status := false }) i gens) i).qg })
          ((gget (lmodify (fun g => { g with status := false }) i gens) i).bus) buses := rfl
  have hpt := getD_lmodify (fun bb => { bb with
            pd := bb.pd - (gget (lmodify (fun g => { g with status := false }) i gens) i).pg,
            qd := bb.qd - (gget (lmodify (fun g => { g with status := false }) i gens) i).qg })
      (default) ((gget (lmodify (fun g => { g with status := false }) i gens) i).bus) buses b
  rw [bget, hco, hpt, hoff.1, hoff.2.1, hoff.2.2]
  by_cases hb : b = (gget gens i).bus
  · rw [if_pos ⟨hb, by rw [hb]; exact hi⟩, if_pos hb]
    rfl
  · rw [if_neg (fun hc => hb hc.1), if_neg hb]
    rfl

theorem restoreOne_fst_bget (buses : List Bus) (gens : List Gen) (i : Nat)
    (hi : (gget gens i).bus < buses.length) (b : Nat) :
    bget (restoreOne (buses, gens) i).1 b
      = if b = (gget gens i).bus then
          { bget buses b with pd := (bget buses b).pd + (gget gens i).pg,
                              qd := (bget buses b).qd + (gget gens i).qg }
        else bget buses b := by
  have hro : (restoreOne (buses, gens) i).1
      = lmodify (fun bb => { bb with
            pd := bb.pd + (gget gens i).pg, qd := bb.qd + (gget gens i).qg })
          ((gget gens i).bus) buses := rfl
  have hpt := getD_lmodify (fun bb => { bb with
            pd := bb.pd + (gget gens i).pg, qd := bb.qd + (gget gens i).qg })
      (default) ((gget gens i).bus) buses b
  rw [bget, hro, hpt]
  by_cases hb : b = (gget gens i).bus
  · rw [if_pos ⟨hb, by rw [hb]; exact hi⟩, if_pos hb]
    rfl
  · rw [if_neg (fun hc => hb hc.1), if_neg hb]
    rfl

theorem convertOne_snd (buses : List Bus) (gens : List Gen) (i : Nat) :
    (convertOne (buses, gens) i).2 = lmodify (fun g => { g with status := false }) i gens := rfl

theorem restoreOne_snd (buses : List Bus) (gens : List Gen) (i : Nat) :
    (restoreOne (buses, gens) i).2 = lmodify (fun g0 => { g0 with status := true }) i gens := rfl

theorem convertOne_fst_length (buses : List Bus) (gens : List Gen) (i : Nat) :
    (convertOne (buses, gens) i).1.length = buses.length := lmodify_length _ _ _

theorem restoreOne_fst_length (buses : List Bus) (gens : List Gen) (i : Nat) :
    (restoreOne (buses, gens) i).1.length = buses.length := lmodify_length _ _ _

theorem convFold_snd (sel : List Nat) :
    ∀ (buses : List Bus) (gens : List Gen),
      (List.foldl convertOne (buses, gens) sel).2 = offFold sel gens := by
  induction sel with
  | nil => intro buses gens; rfl
  | cons i sel ih =>
    intro buses gens
    have h1 : List.foldl convertOne (buses, gens) (i :: sel)
        = List.foldl convertOne ((convertOne (buses, gens) i).1,
            lmodify (fun g => { g with status := false }) i gens) sel := rfl
    rw [h1, ih]
    rfl

theorem restFold_snd (sel : List Nat) :
    ∀ (buses : List Bus) (gens : List Gen),
      (List.foldl restoreOne (buses, gens) sel).2 = onFold sel gens := by
  induction sel with
  | nil => intro buses gens; rfl
  | cons i sel ih =>
    intro buses gens
    have h1 : List.foldl restoreOne (buses, gens) (i :: sel)
        = List.foldl restoreOne ((restoreOne (buses, gens) i).1,
            lmodify (fun g0 => { g0 with status := true }) i gens) sel := rfl
    rw [h1, ih]
    rfl

theorem convFold_fst_length (sel : List Nat) :
    ∀ (buses : List Bus) (gens : List Gen),
      (List.foldl convertOne (buses, gens) sel).1.length = buses.length := by
  induction sel with
  | nil => intro buses gens; rfl
  | cons i sel ih =>
    intro buses gens
    have h1 : List.foldl convertOne (buses, gens) (i :: sel)
        = List.foldl convertOne ((convertOne (buses, gens) i).1,
            (convertOne (buses, gens) i).2) sel := rfl
    rw [h1, ih, convertOne_fst_length]

theorem restFold_fst_length (sel : List Nat) :
    ∀ (buses : List Bus) (gens : List Gen),
      (List.foldl restoreOne (buses, gens) sel).1.length = buses.length := by
  induction sel with
  | nil => intro buses gens; rfl
  | cons i sel ih =>
    intro buses gens
    have h1 : List.foldl restoreOne (buses, gens) (i :: sel)
        = List.foldl restoreOne ((restoreOne (buses, gens) i).1,
            (restoreOne (buses, gens) i).2) sel := rfl
    rw [h1, ih, restoreOne_fst_length]

theorem convFold_fst (sel : List Nat) :
    ∀ (buses : List Bus) (gens : List Gen),
      (∀ i ∈ sel, (gget gens i).bus < buses.length) →
      ∀ b, bget (List.foldl convertOne (buses, gens) sel).1 b
        = { bget buses b with pd := (bget buses b).pd - pdSum sel gens b,
                              qd := (bget buses b).qd - qdSum sel gens b } := by
  induction sel with
  | nil =>
    intro buses gens _ b
    rw [pdSum_nil, qdSum_nil]
    exact busExt rfl (sub_zero _).symm (sub_zero _).symm rfl rfl
  | cons i sel ih =>
    intro buses gens hbus b
    have hbus_i : (gget gens i).bus < buses.length := hbus i (by simp)
    have hsnd := convertOne_snd buses gens i
    have hfields := fun j => gget_statusOff_fields i gens j
    have hbus2 : ∀ i2 ∈ sel, (gget (convertOne (buses, gens) i).2 i2).bus
        < (convertOne (buses, gens) i).1.length := by
      intro i2 hm
      rw [hsnd, (hfields i2).1, convertOne_fst_length]
      exact hbus i2 (by simp [hm])
    have hih := ih (convertOne (buses, gens) i).1 (convertOne (buses, gens) i).2 hbus2 b
    have hpd : pdSum sel (convertOne (buses, gens) i).2 b = pdSum sel gens b := by
      rw [hsnd]
      exact pdSum_congr sel _ gens (fun i2 _ => ⟨(hfields i2).1, (hfields i2).2.1⟩) b
    have hqd : qdSum sel (convertOne (buses, gens) i).2 b = qdSum sel gens b := by
      rw [hsnd]
      exact qdSum_congr sel _ gens (fun i2 _ => ⟨(hfields i2).1, (hfields i2).2.2⟩) b
    have hgoal : bget (List.foldl convertOne (buses, gens) (i :: sel)).1 b
        = bget (List.foldl convertOne ((convertOne (buses, gens) i).1,
            (convertOne (buses, gens) i).2) sel).1 b := rfl
    rw [hgoal]
    refine Eq.trans hih ?_
    rw [hpd, hqd, convertOne_fst_bget buses gens i hbus_i b, pdSum_cons, qdSum_cons]
    by_cases hb : b = (gget gens i).bus
    · rw [if_pos hb, if_pos hb.symm, if_pos hb.symm]
      exact busExt rfl (sub_sub _ _ _) (sub_sub _ _ _) rfl rfl
    · rw [if_neg hb, if_neg (fun h => hb h.symm), if_neg (fun h => hb h.symm)]
      exact busExt rfl (by simp) (by simp) rfl rfl

theorem restFold_fst (sel : List Nat) :
    ∀ (buses : List Bus) (gens : List Gen),
      (∀ i ∈ sel, (gget gens i).bus < buses.length) →
      ∀ b, bget (List.foldl restoreOne (buses, gens) sel).1 b
        = { bget buses b with pd := (bget buses b).pd + pdSum sel gens b,
                              qd := (bget buses b).qd + qdSum sel gens b } := by
  induction sel with
  | nil =>
    intro buses gens _ b
    rw [pdSum_nil, qdSum_nil]
    exact busExt rfl (add_zero _).symm (add_zero _).symm rfl rfl
  | cons i sel ih =>
    intro buses gens hbus b
    have hbus_i : (gget gens i).bus < buses.length := hbus i (by simp)
    have hsnd := restoreOne_snd buses gens i
    have hfields := fun j => gget_statusOn_fields i gens j
    have hbus2 : ∀ i2 ∈ sel, (gget (restoreOne (buses, gens) i).2 i2).bus
        < (restoreOne (buses, gens) i).1.length := by
      intro i2 hm
      rw [hsnd, (hfields i2).1, restoreOne_fst_length]
      exact hbus i2 (by simp [hm])
    have hih := ih (restoreOne (buses, gens) i).1 (restoreOne (buses, gens) i).2 hbus2 b
    have hpd : pdSum sel (restoreOne (buses, gens) i).2 b = pdSum sel gens b := by
      rw [hsnd]
      exact pdSum_congr sel _ gens (fun i2 _ => ⟨(hfields i2).1, (hfields i2).2.1⟩) b
    have hqd : qdSum sel (restoreOne (buses, gens) i).2 b = qdSum sel gens b := by
      rw [hsnd]
      exact qdSum_congr sel _ gens (fun i2 _ => ⟨(hfields i2).1, (hfields i2).2.2⟩) b
    have hgoal : bget (List.foldl restoreOne (buses, gens) (i :: sel)).1 b
        = bget (List.foldl restoreOne ((restoreOne (buses, gens) i).1,
            (restoreOne (buses, gens) i).2) sel).1 b := rfl
    rw [hgoal]
    refine Eq.trans hih ?_
    rw [hpd, hqd, restoreOne_fst_bget buses gens i hbus_i b, pdSum_cons, qdSum_cons]
    by_cases hb : b = (gget gens i).bus
    · rw [if_pos hb, if_pos hb.symm, if_pos hb.symm]
      exact busExt rfl (add_assoc _ _ _) (add_assoc _ _ _) rfl rfl
    · rw [if_neg hb, if_neg (fun h => hb h.symm), if_neg (fun h => hb h.symm)]
      exact busExt rfl (by simp) (by simp) rfl rfl

theorem restoreAll_gens (s : LoopState) (i : Nat) (hi : i ∈ s.limited)
    (hl : i < s.gens.length) :
    (gget (restoreAll s).gens i).status = true ∧
    (gget (restoreAll s).gens i).qg = s.fixedQg i := by
  have hne : ¬(s.limited.length = 0) := by
    intro h
    rw [List.length_eq_zero] at h
    rw [h] at hi
    exact absurd hi (List.not_mem_nil i)
  have hgens : (restoreAll s).gens
      = (List.foldl restoreOne (s.buses, setQg s.fixedQg s.limited s.gens) s.limited).2 := by
    unfold restoreAll
    rw [if_neg hne]
  rw [hgens, restFold_snd]
  have hsq := setQg_gget s.fixedQg s.limited s.gens i
  rw [if_pos ⟨hi, hl⟩] at hsq
  have hon := onFold_gget s.limited (setQg s.fixedQg s.limited s.gens) i
  rw [if_pos ⟨hi, by rw [setQg_length]; exact hl⟩] at hon
  rw [hon, hsq]
  exact ⟨rfl, rfl⟩

theorem restoreAll_buses (s : LoopState)
    (hbus : ∀ i ∈ s.limited, (gget s.gens i).bus < s.buses.length)
    (hlen : ∀ i ∈ s.limited, i < s.gens.length) (b : Nat) :
    (bget (restoreAll s).buses b).pd = (bget s.buses b).pd + pdSum s.limited s.gens b ∧
    (bget (restoreAll s).buses b).qd
      = (bget s.buses b).qd + fqSum s.limited s.gens s.fixedQg b := by
  by_cases hempty : s.limited.length = 0
  · have hnil : s.limited = [] := List.length_eq_zero.mp hempty
    unfold restoreAll
    rw [if_pos hempty, hnil, pdSum_nil, fqSum_nil, add_zero, add_zero]
    exact ⟨rfl, rfl⟩
  · have hbuses : (restoreAll s).buses
        = (List.foldl restoreOne (s.buses, setQg s.fixedQg s.limited s.gens) s.limited).1 := by
      unfold restoreAll
      rw [if_neg hempty]
    have hbus1 : ∀ i ∈ s.limited,
        (gget (setQg s.fixedQg s.limited s.gens) i).bus < s.buses.length := by
      intro i hm
      rw [(gget_setQg_fields _ _ _ _).1]
      exact hbus i hm
    have hfst := restFold_fst s.limited s.buses (setQg s.fixedQg s.limited s.gens) hbus1 b
    have hpd : pdSum s.limited (setQg s.fixedQg s.limited s.gens) b
        = pdSum s.limited s.gens b :=
      pdSum_congr _ _ _
        (fun i _ => ⟨(gget_setQg_fields _ _ _ _).1, (gget_setQg_fields _ _ _ _).2.1⟩) b
    have hqd : qdSum s.limited (setQg s.fixedQg s.limited s.gens) b
        = fqSum s.limited s.gens s.fixedQg b := by
      have h1 : qdSum s.limited (setQg s.fixedQg s.limited s.gens) b
          = fqSum s.limited (setQg s.fixedQg s.limited s.gens) s.fixedQg b := by
        refine qdSum_eq_fqSum _ _ _ _ (fun i hm => ?_)
        rw [setQg_gget, if_pos ⟨hm, hlen i hm⟩]
      rw [h1]
      exact fqSum_congr _ _ _ _ _ (fun i _ => (gget_setQg_fields _ _ _ _).1)
        (fun i _ => rfl) b
    rw [hbuses, hfst, hpd, hqd]
    exact ⟨rfl, rfl⟩

theorem gget_offFold_fields (sel : List Nat) (gens : List Gen) (j : Nat) :
    (gget (offFold sel gens) j).bus = (gget gens j).bus ∧
    (gget (offFold sel gens) j).pg = (gget gens j).pg ∧
    (gget (offFold sel gens) j).qg = (gget gens j).qg := by
  rw [offFold_gget]
  by_cases hc : j ∈ sel ∧ j < gens.length
  · rw [if_pos hc]; exact ⟨rfl, rfl, rfl⟩
  · rw [if_neg hc]; exact ⟨rfl, rfl, rfl⟩

theorem convertOne_fst_btype (buses : List Bus) (gens : List Gen) (i : Nat) (b : Nat) :
    (bget (convertOne (buses, gens) i).1 b).btype = (bget buses b).btype := by
  have hco : (convertOne (buses, gens) i).1
      = lmodify (fun bb => { bb with
            pd := bb.pd - (gget (lmodify (fun g => { g with status := false }) i gens) i).pg,
            qd := bb.qd - (gget (lmodify (fun g => { g with status := false }) i gens) i).qg })
          ((gget (lmodify (fun g => { g with status := false }) i gens) i).bus) buses := rfl
  rw [bget, hco, getD_lmodify]
  by_cases hc : b = (gget (lmodify (fun g => { g with status := false }) i gens) i).bus
      ∧ b < buses.length
  · rw [if_pos hc]; rfl
  · rw [if_neg hc]; rfl

theorem convFold_fst_btype (sel : List Nat) :
    ∀ (buses : List Bus) (gens : List Gen) (b : Nat),
      (bget (List.foldl convertOne (buses, gens) sel).1 b).btype = (bget buses b).btype := by
  induction sel with
  | nil => intro buses gens b; rfl
  | cons i sel ih =>
    intro buses gens b
    have h1 : bget (List.foldl convertOne (buses, gens) (i :: sel)).1 b
        = bget (List.foldl convertOne ((convertOne (buses, gens) i).1,
            (convertOne (buses, gens) i).2) sel).1 b := rfl
    rw [h1, ih, convertOne_fst_btype]

theorem convBG_snd (s : LoopState) (mx1 mn1 : List Nat) :
    (convBG s mx1 mn1).2 = offFold (mx1 ++ mn1) (convGens s mx1 mn1) :=
  convFold_snd _ _ _

theorem gget_convBG_fields (s : LoopState) (mx1 mn1 : List Nat) (j : Nat) :
    (gget (convBG s mx1 mn1).2 j).bus = (gget s.gens j).bus ∧
    (gget (convBG s mx1 mn1).2 j).pg = (gget s.gens j).pg := by
  rw [convBG_snd]
  constructor
  · rw [(gget_offFold_fields _ _ _).1]
    exact (gget_setQg_fields _ _ _ _).1
  · rw [(gget_offFold_fields _ _ _).2.1]
    exact (gget_setQg_fields _ _ _ _).2.1

theorem bget_convBG_btype (s : LoopState) (mx1 mn1 : List Nat) (b : Nat) :
    (bget (convBG s mx1 mn1).1 b).btype = (bget s.buses b).btype :=
  convFold_fst_btype _ _ _ _

theorem convBG_fst_length (s : LoopState) (mx1 mn1 : List Nat) :
    (convBG s mx1 mn1).1.length = s.buses.length :=
  convFold_fst_length _ _ _

theorem convBG_snd_length (s : LoopState) (mx1 mn1 : List Nat) :
    (convBG s mx1 mn1).2.length = s.gens.length := by
  rw [convBG_snd, offFold_length]
  exact setQg_length _ _ _

theorem pqFold_btype (sel : List Nat) :
    ∀ (gens : List Gen) (buses : List Bus) (b : Nat),
      (bget (pqFold sel gens buses) b).btype
        = if b < buses.length ∧ (sel.any (fun i => (gget gens i).bus == b)) = true then PQ
          else (bget buses b).btype := by
  induction sel with
  | nil =>
    intro gens buses b
    rw [if_neg]
    · rfl
    · rintro ⟨-, h⟩
      simp at h
  | cons i sel ih =>
    intro gens buses b
    have h1 : pqFold (i :: sel) gens buses
        = pqFold sel gens (lmodify (fun bb => { bb with btype := PQ })
            ((gget gens i).bus) buses) := rfl
    have hlen : (lmodify (fun bb => { bb with btype := PQ })
        ((gget gens i).bus) buses).length = buses.length := lmodify_length _ _ _
    have hb1 : bget (lmodify (fun bb => { bb with btype := PQ }) ((gget gens i).bus) buses) b
        = if b = (gget gens i).bus ∧ b < buses.length then { bget buses b with btype := PQ }
          else bget buses b := getD_lmodify _ _ _ _ _
    rw [h1, ih, hlen]
    by_cases hA : (sel.any (fun i2 => (gget gens i2).bus == b)) = true
    · by_cases hl : b < buses.length
      · rw [if_pos ⟨hl, hA⟩, if_pos ⟨hl, by simp [List.any_cons, hA]⟩]
      · rw [if_neg (fun hc => hl hc.1), if_neg (fun hc => hl hc.1), hb1,
            if_neg (fun hc => hl hc.2)]
    · rw [if_neg (fun hc => hA hc.2), hb1]
      by_cases hbi : b = (gget gens i).bus ∧ b < buses.length
      · rw [if_pos hbi, if_pos ⟨hbi.2, by simp [List.any_cons, hbi.1]⟩]
      · rw [if_neg hbi, if_neg]
        rintro ⟨hl2, hor⟩
        rw [List.any_cons] at hor
        rcases Bool.or_eq_true_iff.mp hor with h | h
        · exact hbi ⟨(beq_iff_eq.mp h).symm, hl2⟩
        · exact hA h

/-- C1.  The claim says a DC-only run (`ac = false`) performs one DC solve
and returns success = true with a stored result triple.  The code's DC
branch never assigns the locals `bus`, `gen`, `branch`, yet falls through
to `_store_results_from_pf_in_ppci(ppci, bus, gen, branch, ...)`, which
reads them: every DC-only call raises `UnboundLocalError` instead of
returning.  This holds for every choice of the external collaborators and
every input network. -/
theorem C1_dc_only_raises_unbound_local
    (run_dc_pf : PPCI → PPCI)
    (ac_runpf : PPCI → PPCI × Bool × List Bus × List Gen × List Branch)
    (store_results : PPCI → List Bus → List Gen → List Branch → Bool → PPCI)
    (init_va_degree_dc : Bool) (ppci : PPCI) :
    runpf_pypower run_dc_pf ac_runpf store_results false init_va_degree_dc ppci
      = Except.error PFErr.unboundLocal := rfl

/-- C3.  Evaluating the fix-worst-one selection on the failing input: with
`mx = []` and `mn = [0]` (the worst violator is the first under-limit gen)
the argmax index is `k = 0`, the test `k > len(mx)` is false because the
Python port kept MATPOWER's 1-based strict comparison, and `mx[0]` is then
evaluated on the empty over-limit array — an IndexError — instead of
selecting gen 0.  The same crash propagates out of the CONVERTING pass. -/
theorem C3_fix_worst_one_first_under_limit_index_error :
    violations gensC3 = ([], [0]) ∧
    selectWorst gensC3 [] [0] = Except.error PFErr.indexError ∧
    convertPass 2 sC3 [] [0] = Except.error PFErr.indexError :=
  ⟨by decide, rfl, rfl⟩

/-- C7.  The admittance fetch: when recycling is allowed and the stored
Ybus is non-empty, the stored triple is returned unchanged and the builder
is never consulted (the result is the same for any two builders);
otherwise the returned triple is freshly built from the current bus/branch
data, and it is stored back exactly when recycling is allowed. -/
theorem C7_get_Y_bus_reuse_or_build (ppci : PPCI) (recycleYbus : Bool)
    (mk mk2 : ℤ → List Bus → List Branch → Mat × Mat × Mat)
    (baseMVA : ℤ) (bus : List Bus) (branch : List Branch) :
    (recycleYbus = true → ppci.internal.ybus.entries ≠ [] →
      get_Y_bus ppci recycleYbus mk baseMVA bus branch
        = (ppci, ppci.internal.ybus, ppci.internal.yf, ppci.internal.yt) ∧
      get_Y_bus ppci recycleYbus mk baseMVA bus branch
        = get_Y_bus ppci recycleYbus mk2 baseMVA bus branch) ∧
    (recycleYbus = false ∨ ppci.internal.ybus.entries = [] →
      get_Y_bus ppci recycleYbus mk baseMVA bus branch
        = ((if recycleYbus then
              { ppci with internal := ⟨(mk baseMVA bus branch).1,
                  (mk baseMVA bus branch).2.1, (mk baseMVA bus branch).2.2⟩ }
            else ppci),
           (mk baseMVA bus branch).1, (mk baseMVA bus branch).2.1,
           (mk baseMVA bus branch).2.2)) := by
  constructor
  · intro h1 h2
    constructor
    · simp [get_Y_bus, h1, h2]
    · simp [get_Y_bus, h1, h2]
  · intro h
    have hc : ¬(recycleYbus = true ∧ ppci.internal.ybus.entries ≠ []) := by
      rcases h with h | h
      · rintro ⟨hr, -⟩; rw [h] at hr; cases hr
      · rintro ⟨-, he⟩; exact he h
    simp only [get_Y_bus, if_neg hc]

/-- C7 witness: with recycling on and the stored Ybus non-empty, the fetch
returns the stored triple unchanged. -/
theorem C7_witness :
    (true = true) ∧ ppciW.internal.ybus.entries ≠ [] ∧
    get_Y_bus ppciW true mkW 1 [] []
      = (ppciW, ppciW.internal.ybus, ppciW.internal.yf, ppciW.internal.yt) :=
  ⟨rfl, by decide, ((C7_get_Y_bus_reuse_or_build ppciW true mkW mkW2 1 [] []).1 rfl
      (by decide)).1⟩

/-- C8.  The dispatcher: any algorithm id other than 2/3 (fast-decoupled)
or 4 (Gauss-Seidel) — including the deleted Newton-Raphson id 1 — fails
immediately with the unsupported-algorithm error and an empty call trace
(zero kernel invocations); for 2 and 3 the trace is exactly `makeB` then
`fdpf` (the B pair is built before the kernel runs); for 4 it is exactly
`gausspf`, with no B-pair construction. -/
theorem C8_dispatcher_unsupported_and_traces (alg : Nat)
    (makeB : ℤ → List Bus → List Branch → Nat → Mat × Mat)
    (fdpf : Mat → List ℤ → List ℤ → Mat → Mat → List Nat → List Nat → List Nat → List ℤ × Bool)
    (gausspf : Mat → List ℤ → List ℤ → List Nat → List Nat → List Nat → List ℤ × Bool)
    (baseMVA : ℤ) (bus : List Bus) (branch : List Branch)
    (Ybus : Mat) (Sbus V0 : List ℤ) (ref pv pq : List Nat) :
    (alg ≠ 2 → alg ≠ 3 → alg ≠ 4 →
      call_power_flow_function alg makeB fdpf gausspf baseMVA bus branch Ybus Sbus V0 ref pv pq
        = (Except.error PFErr.unsupportedAlg, [])) ∧
    (alg = 2 ∨ alg = 3 →
      (call_power_flow_function alg makeB fdpf gausspf baseMVA bus branch Ybus Sbus V0 ref pv pq).2
        = [Kernel.makeB, Kernel.fdpf]) ∧
    (alg = 4 →
      (call_power_flow_function alg makeB fdpf gausspf baseMVA bus branch Ybus Sbus V0 ref pv pq).2
        = [Kernel.gausspf]) := by
  refine ⟨fun h2 h3 h4 => ?_, fun h => ?_, fun h => ?_⟩
  · simp [call_power_flow_function, h2, h3, h4]
  · rcases h with h | h <;> simp [call_power_flow_function, h]
  · simp [call_power_flow_function, h]

/-- C8 witness: algorithm id 7 is rejected with an empty kernel trace. -/
theorem C8_witness :
    (7 : Nat) ≠ 2 ∧ (7 : Nat) ≠ 3 ∧ (7 : Nat) ≠ 4 ∧
    call_power_flow_function 7 makeBW fdpfW gausspfW 1 [] [] ⟨[]⟩ [] [] [] [] []
      = (Except.error PFErr.unsupportedAlg, []) :=
  ⟨by decide, by decide, by decide,
    (C8_dispatcher_unsupported_and_traces 7 makeBW fdpfW gausspfW 1 [] [] ⟨[]⟩ [] [] [] [] []).1
      (by decide) (by decide) (by decide)⟩

/-- C2 counterexample.  On the two-bus fixture with `stepC2`, the very
first PowerFlowStep reports non-convergence, yet the loop does not
terminate: it still checks violations, converts gen 0, re-solves, and the
whole run returns success = true with gen 0 restored — so a non-converged
step is neither propagated nor a terminal INFEASIBLE exit. -/
theorem C2_counterexample :
    (stepC2 (busesW, gensW)).2 = false ∧
    runState (run_ac_pf_with_qlims_enforced stepC2 1 5 busesW gensW)
      = some ([⟨REF, 1, 1, 1, 0⟩, ⟨PQ, 2, 3, 1, 0⟩],
              [⟨1, 10, 50, 50, -50, true⟩, ⟨0, 5, 0, 100, -100, true⟩], true) := by
  constructor
  · decide
  · decide

/-- C4 counterexample.  On the two-bus fixture with `stepC4`, pass 1
converts gen 0 (leaving no PV bus), pass 2 finds the slack gen violating
with no PV bus left, so the loop exits infeasible with success = false —
and the post-loop restoration still runs: gen 0 comes back in service with
`Qg = 50` and bus 1's demand is restored to (2, 3), contradicting "no
restoration of previously limited generators". -/
theorem C4_counterexample :
    runState (run_ac_pf_with_qlims_enforced stepC4 1 5 busesW gensW)
      = some ([⟨REF, 1, 1, 1, 0⟩, ⟨PQ, 2, 3, 1, 0⟩],
              [⟨1, 10, 50, 50, -50, true⟩, ⟨0, 5, 999, 100, -100, true⟩], false) := by
  decide

/-- C2 amended: the loop never consults the convergence flag when deciding
whether to continue.  After any step — converged or not — whose result has
Q-limit violations while PV buses remain, the loop proceeds to the
CONVERTING pass and then re-solves; the convergence flag of a
non-converged step influences only the success value returned when the
loop happens to exit on that step (no violations, or no PV bus left). -/
theorem C2_loop_ignores_convergence_flag
    (step : List Bus × List Gen → (List Bus × List Gen) × Bool)
    (qlim fuel : Nat) (s : LoopState)
    (hv : nviol (stepState step s).gens ≠ 0)
    (hpv : s.pv.length ≠ 0) :
    qlimLoop step qlim (fuel + 1) s
      = Except.bind (convertPass qlim (stepState step s)
          (violations (stepState step s).gens).1 (violations (stepState step s).gens).2)
          (qlimLoop step qlim fuel) := by
  have hpv1 : ¬((stepState step s).pv.length = 0) := hpv
  simp only [qlimLoop]
  rw [if_pos hv, if_neg hpv1]

/-- C2 witness: with `stepC2` (which reports non-convergence) on the
two-bus fixture, the loop body still branches into the CONVERTING pass. -/
theorem C2_witness :
    nviol (stepState stepC2 sC2w).gens ≠ 0 ∧ sC2w.pv.length ≠ 0 ∧
    qlimLoop stepC2 1 (3 + 1) sC2w
      = Except.bind (convertPass 1 (stepState stepC2 sC2w)
          (violations (stepState stepC2 sC2w).gens).1
          (violations (stepState stepC2 sC2w).gens).2)
          (qlimLoop stepC2 1 3) :=
  ⟨by decide, by decide, C2_loop_ignores_convergence_flag stepC2 1 3 sC2w (by decide) (by decide)⟩

/-- C4 amended: on the infeasible exit (violations present while no PV bus
remains) the loop breaks with success = false and the current pass applies
no conversion, but the shared post-loop restoration still runs: every
generator limited in an earlier pass is switched back in service with its
reactive output restored to the recorded fixed value (and, by
`restoreAll_buses`, the demand offsets are reversed). -/
theorem C4_infeasible_returns_false_but_still_restores
    (step : List Bus × List Gen → (List Bus × List Gen) × Bool)
    (qlim fuel : Nat) (s : LoopState) (i : Nat)
    (hv : nviol (stepState step s).gens ≠ 0)
    (hpv : s.pv.length = 0)
    (hi : i ∈ s.limited)
    (hl : i < (stepState step s).gens.length) :
    qlimLoop step qlim (fuel + 1) s = Except.ok (some (stepState step s, false)) ∧
    (gget (restoreAll (stepState step s)).gens i).status = true ∧
    (gget (restoreAll (stepState step s)).gens i).qg = (stepState step s).fixedQg i := by
  have hpv1 : (stepState step s).pv.length = 0 := hpv
  refine ⟨?_, ?_, ?_⟩
  · simp only [qlimLoop]
    rw [if_pos hv, if_pos hpv1]
  · exact (restoreAll_gens (stepState step s) i hi hl).1
  · exact (restoreAll_gens (stepState step s) i hi hl).2

/-- C4 witness: from the post-pass-1 state, the infeasible exit returns
success = false and the restoration still brings gen 0 back in service
with `Qg = fixedQg 0`. -/
theorem C4_witness :
    nviol (stepState stepId sC4w).gens ≠ 0 ∧ sC4w.pv.length = 0 ∧ 0 ∈ sC4w.limited ∧
    (qlimLoop stepId 1 (2 + 1) sC4w = Except.ok (some (stepState stepId sC4w, false)) ∧
     (gget (restoreAll (stepState stepId sC4w)).gens 0).status = true ∧
     (gget (restoreAll (stepState stepId sC4w)).gens 0).qg = (stepState stepId sC4w).fixedQg 0) :=
  ⟨by decide, by decide, by decide,
    C4_infeasible_returns_false_but_still_restores stepId 1 2 sC4w 0 (by decide) (by decide)
      (by decide) (by decide)⟩

/-- C5.  The multi-slack guard of the CONVERTING block: the error is raised
exactly when more than one slack bus is in `ref` and some selected gen sits
on a bus whose live type is REF; the state carried by the raise still has
every bus-type entry unchanged (the raise happens before the PQ
reclassification); and when the pass succeeds while `ref` has more than one
entry, every REF bus keeps its REF type — a slack bus is never reclassified
to PQ while multiple slacks are present. -/
theorem C5_slack_guard (s : LoopState) (mx1 mn1 : List Nat) :
    (isMultiSlack (convertCore s mx1 mn1) = true ↔
      (1 < s.ref.length ∧
        ∃ i ∈ mx1 ++ mn1, (bget s.buses (gget s.gens i).bus).btype = REF)) ∧
    (∀ b, (bget (msState (convertCore s mx1 mn1) s).buses b).btype
        = (bget s.buses b).btype) ∧
    (1 < s.ref.length → isOk (convertCore s mx1 mn1) = true →
      ∀ b, (bget s.buses b).btype = REF →
        (bget (okState (convertCore s mx1 mn1) s).buses b).btype = REF) := by
  have hcond : (1 < s.ref.length ∧ ((mx1 ++ mn1).any (fun i =>
        (bget (convBG s mx1 mn1).1 (gget (convBG s mx1 mn1).2 i).bus).btype == REF)) = true)
      ↔ (1 < s.ref.length ∧
          ∃ i ∈ mx1 ++ mn1, (bget s.buses (gget s.gens i).bus).btype = REF) := by
    refine and_congr_right (fun _ => ?_)
    rw [List.any_eq_true]
    constructor
    · rintro ⟨i, hm, hf⟩
      refine ⟨i, hm, ?_⟩
      rw [beq_iff_eq, (gget_convBG_fields s mx1 mn1 i).1, bget_convBG_btype s mx1 mn1] at hf
      exact hf
    · rintro ⟨i, hm, hf⟩
      refine ⟨i, hm, ?_⟩
      rw [beq_iff_eq, (gget_convBG_fields s mx1 mn1 i).1, bget_convBG_btype s mx1 mn1]
      exact hf
  by_cases hC : 1 < s.ref.length ∧ ((mx1 ++ mn1).any (fun i =>
      (bget (convBG s mx1 mn1).1 (gget (convBG s mx1 mn1).2 i).bus).btype == REF)) = true
  · have hcc : convertCore s mx1 mn1
        = Except.error (PFErr.multiSlack ⟨(convBG s mx1 mn1).1, (convBG s mx1 mn1).2,
            s.ref, s.pv, s.pq, bindingQ s.gens mx1 mn1 s.fixedQg, s.limited⟩) := by
      unfold convertCore
      rw [if_pos hC]
    refine ⟨?_, ?_, ?_⟩
    · rw [hcc]
      exact ⟨fun _ => hcond.mp hC, fun _ => rfl⟩
    · intro b
      rw [hcc]
      exact bget_convBG_btype s mx1 mn1 b
    · intro _ hok
      rw [hcc] at hok
      exact absurd hok (by simp [isOk])
  · have hcc : convertCore s mx1 mn1
        = Except.ok ⟨pqFold (mx1 ++ mn1) (convBG s mx1 mn1).2 (convBG s mx1 mn1).1,
            (convBG s mx1 mn1).2,
            (bustypes (pqFold (mx1 ++ mn1) (convBG s mx1 mn1).2 (convBG s mx1 mn1).1)
              (convBG s mx1 mn1).2).1,
            (bustypes (pqFold (mx1 ++ mn1) (convBG s mx1 mn1).2 (convBG s mx1 mn1).1)
              (convBG s mx1 mn1).2).2.1,
            (bustypes (pqFold (mx1 ++ mn1) (convBG s mx1 mn1).2 (convBG s mx1 mn1).1)
              (convBG s mx1 mn1).2).2.2,
            bindingQ s.gens mx1 mn1 s.fixedQg, s.limited ++ (mx1 ++ mn1)⟩ := by
      unfold convertCore
      rw [if_neg hC]
    refine ⟨?_, ?_, ?_⟩
    · rw [hcc]
      constructor
      · intro h
        exact absurd h (by simp [isMultiSlack])
      · intro h
        exact absurd (hcond.mpr h) hC
    · intro b
      rw [hcc]
      rfl
    · intro href _ b hbREF
      rw [hcc]
      show (bget (pqFold (mx1 ++ mn1) (convBG s mx1 mn1).2 (convBG s mx1 mn1).1) b).btype = REF
      have hneg : ¬(b < (convBG s mx1 mn1).1.length ∧
          ((mx1 ++ mn1).any (fun i => (gget (convBG s mx1 mn1).2 i).bus == b)) = true) := by
        rintro ⟨-, hany⟩
        apply hC
        refine ⟨href, ?_⟩
        rw [List.any_eq_true] at hany
        obtain ⟨i, hm, hf⟩ := hany
        rw [beq_iff_eq] at hf
        rw [List.any_eq_true]
        refine ⟨i, hm, ?_⟩
        rw [beq_iff_eq, hf, bget_convBG_btype]
        exact hbREF
      rw [pqFold_btype, if_neg hneg, bget_convBG_btype]
      exact hbREF

/-- C5 witness: on the two-slack fixture with gen 0 (on slack bus 0)
selected, the guard fires. -/
theorem C5_witness : isMultiSlack (convertCore sMSw [0] []) = true :=
  (C5_slack_guard sMSw [0] []).1.mpr ⟨by decide, ⟨0, by decide, by decide⟩⟩

/-- C9.  When the multi-slack error is raised, the state it carries (the
in-place mutated arrays) is not rolled back: every selected gen is already
out of service with its reactive output at the binding limit, every bus's
demand is already reduced by the selected outputs, and every bus-type
entry is still unchanged — the raise sits after the demand/status mutation
and before the PQ reclassification. -/
theorem C9_multi_slack_raise_keeps_mutation (s : LoopState) (mx1 mn1 : List Nat)
    (hms : isMultiSlack (convertCore s mx1 mn1) = true)
    (hsel : ∀ i ∈ mx1 ++ mn1,
      i < s.gens.length ∧ (gget s.gens i).bus < s.buses.length) :
    (∀ i ∈ mx1 ++ mn1,
        (gget (msState (convertCore s mx1 mn1) s).gens i).status = false ∧
        (gget (msState (convertCore s mx1 mn1) s).gens i).qg
          = bindingQ s.gens mx1 mn1 s.fixedQg i) ∧
    (∀ b, (bget (msState (convertCore s mx1 mn1) s).buses b).btype
        = (bget s.buses b).btype) ∧
    (∀ b, (bget (msState (convertCore s mx1 mn1) s).buses b).pd
            = (bget s.buses b).pd - pdSum (mx1 ++ mn1) s.gens b ∧
          (bget (msState (convertCore s mx1 mn1) s).buses b).qd
            = (bget s.buses b).qd
              - fqSum (mx1 ++ mn1) s.gens (bindingQ s.gens mx1 mn1 s.fixedQg) b) := by
  by_cases hC : 1 < s.ref.length ∧ ((mx1 ++ mn1).any (fun i =>
      (bget (convBG s mx1 mn1).1 (gget (convBG s mx1 mn1).2 i).bus).btype == REF)) = true
  case neg =>
    have hcc : convertCore s mx1 mn1
        = Except.ok ⟨pqFold (mx1 ++ mn1) (convBG s mx1 mn1).2 (convBG s mx1 mn1).1,
            (convBG s mx1 mn1).2,
            (bustypes (pqFold (mx1 ++ mn1) (convBG s mx1 mn1).2 (convBG s mx1 mn1).1)
              (convBG s mx1 mn1).2).1,
            (bustypes (pqFold (mx1 ++ mn1) (convBG s mx1 mn1).2 (convBG s mx1 mn1).1)
              (convBG s mx1 mn1).2).2.1,
            (bustypes (pqFold (mx1 ++ mn1) (convBG s mx1 mn1).2 (convBG s mx1 mn1).1)
              (convBG s mx1 mn1).2).2.2,
            bindingQ s.gens mx1 mn1 s.fixedQg, s.limited ++ (mx1 ++ mn1)⟩ := by
      unfold convertCore
      rw [if_neg hC]
    rw [hcc] at hms
    exact absurd hms (by simp [isMultiSlack])
  case pos =>
    have hcc : convertCore s mx1 mn1
        = Except.error (PFErr.multiSlack ⟨(convBG s mx1 mn1).1, (convBG s mx1 mn1).2,
            s.ref, s.pv, s.pq, bindingQ s.gens mx1 mn1 s.fixedQg, s.limited⟩) := by
      unfold convertCore
      rw [if_pos hC]
    have hbus1 : ∀ i ∈ mx1 ++ mn1, (gget (convGens s mx1 mn1) i).bus < s.buses.length := by
      intro i hm
      have := (gget_setQg_fields (bindingQ s.gens mx1 mn1 s.fixedQg) (mx1 ++ mn1) s.gens i).1
      simp only [convGens]
      rw [this]
      exact (hsel i hm).2
    refine ⟨?_, ?_, ?_⟩
    · intro i hm
      rw [hcc]
      have hl : i < s.gens.length := (hsel i hm).1
      have hoff : gget (convBG s mx1 mn1).2 i
          = { gget (convGens s mx1 mn1) i with status := false } := by
        rw [convBG_snd, offFold_gget,
          if_pos ⟨hm, by simp only [convGens]; rw [setQg_length]; exact hl⟩]
      have hset : gget (convGens s mx1 mn1) i
          = { gget s.gens i with qg := bindingQ s.gens mx1 mn1 s.fixedQg i } := by
        simp only [convGens]
        rw [setQg_gget, if_pos ⟨hm, hl⟩]
      constructor
      · show (gget (convBG s mx1 mn1).2 i).status = false
        rw [hoff]
      · show (gget (convBG s mx1 mn1).2 i).qg = bindingQ s.gens mx1 mn1 s.fixedQg i
        rw [hoff]
        show (gget (convGens s mx1 mn1) i).qg = bindingQ s.gens mx1 mn1 s.fixedQg i
        rw [hset]
    · intro b
      rw [hcc]
      exact bget_convBG_btype s mx1 mn1 b
    · intro b
      rw [hcc]
      have hfold := convFold_fst (mx1 ++ mn1) s.buses (convGens s mx1 mn1) hbus1 b
      have hpdc : pdSum (mx1 ++ mn1) (convGens s mx1 mn1) b = pdSum (mx1 ++ mn1) s.gens b := by
        refine pdSum_congr _ _ _ (fun i _ => ?_) b
        simp only [convGens]
        exact ⟨(gget_setQg_fields _ _ _ _).1, (gget_setQg_fields _ _ _ _).2.1⟩
      have hqdc : qdSum (mx1 ++ mn1) (convGens s mx1 mn1) b
          = fqSum (mx1 ++ mn1) s.gens (bindingQ s.gens mx1 mn1 s.fixedQg) b := by
        have h1 : qdSum (mx1 ++ mn1) (convGens s mx1 mn1) b
            = fqSum (mx1 ++ mn1) (convGens s mx1 mn1)
                (bindingQ s.gens mx1 mn1 s.fixedQg) b := by
          refine qdSum_eq_fqSum _ _ _ _ (fun i hm => ?_)
          simp only [convGens]
          rw [setQg_gget, if_pos ⟨hm, (hsel i hm).1⟩]
        rw [h1]
        refine fqSum_congr _ _ _ _ _ (fun i _ => ?_) (fun i _ => rfl) b
        simp only [convGens]
        exact (gget_setQg_fields _ _ _ _).1
      have hfst : bget (convBG s mx1 mn1).1 b
          = { bget s.buses b with
                pd := (bget s.buses b).pd - pdSum (mx1 ++ mn1) (convGens s mx1 mn1) b,
                qd := (bget s.buses b).qd - qdSum (mx1 ++ mn1) (convGens s mx1 mn1) b } := hfold

      rw [show (bget (msState (Except.error (PFErr.multiSlack ⟨(convBG s mx1 mn1).1,
            (convBG s mx1 mn1).2, s.ref, s.pv, s.pq, bindingQ s.gens mx1 mn1 s.fixedQg,
            s.limited⟩)) s).buses b) = bget (convBG s mx1 mn1).1 b from rfl]
      rw [hfst, hpdc, hqdc]
      exact ⟨rfl, rfl⟩

/-- C9 witness: on the two-slack fixture the raise occurs, the selected gen
indices are in range, and the carried state keeps bus 0's REF type. -/
theorem C9_witness :
    isMultiSlack (convertCore sMSw [0] []) = true ∧
    (∀ i ∈ [0] ++ ([] : List Nat),
      i < sMSw.gens.length ∧ (gget sMSw.gens i).bus < sMSw.buses.length) ∧
    (bget (msState (convertCore sMSw [0] []) sMSw).buses 0).btype
      = (bget sMSw.buses 0).btype :=
  ⟨by decide, by decide,
    (C9_multi_slack_raise_keeps_mutation sMSw [0] [] (by decide) (by decide)).2.1 0⟩

/-- C10.  With at most one slack bus in `ref`, the multi-slack guard never
fires: the CONVERTING pass succeeds, each selected gen's bus — the slack
bus included — is reclassified to PQ, and the ref/pv/pq partition is
recomputed from the updated types; on the concrete single-slack fixture
this leaves the reference set empty for the next solve. -/
theorem C10_single_slack_converted_like_any_other (s : LoopState) (mx1 mn1 : List Nat)
    (href : s.ref.length ≤ 1) :
    isOk (convertCore s mx1 mn1) = true ∧
    (∀ i ∈ mx1 ++ mn1, (gget s.gens i).bus < s.buses.length →
      (bget (okState (convertCore s mx1 mn1) s).buses ((gget s.gens i).bus)).btype = PQ) ∧
    ((okState (convertCore s mx1 mn1) s).ref
      = (bustypes (okState (convertCore s mx1 mn1) s).buses
          (okState (convertCore s mx1 mn1) s).gens).1) ∧
    (okState (convertCore sC10w [0] []) sC10w).ref = [] ∧
    (bget (okState (convertCore sC10w [0] []) sC10w).buses 0).btype = PQ := by
  have hC : ¬(1 < s.ref.length ∧ ((mx1 ++ mn1).any (fun i =>
      (bget (convBG s mx1 mn1).1 (gget (convBG s mx1 mn1).2 i).bus).btype == REF)) = true) :=
    fun hc => absurd hc.1 (not_lt.mpr href)
  have hcc : convertCore s mx1 mn1
      = Except.ok ⟨pqFold (mx1 ++ mn1) (convBG s mx1 mn1).2 (convBG s mx1 mn1).1,
          (convBG s mx1 mn1).2,
          (bustypes (pqFold (mx1 ++ mn1) (convBG s mx1 mn1).2 (convBG s mx1 mn1).1)
            (convBG s mx1 mn1).2).1,
          (bustypes (pqFold (mx1 ++ mn1) (convBG s mx1 mn1).2 (convBG s mx1 mn1).1)
            (convBG s mx1 mn1).2).2.1,
          (bustypes (pqFold (mx1 ++ mn1) (convBG s mx1 mn1).2 (convBG s mx1 mn1).1)
            (convBG s mx1 mn1).2).2.2,
          bindingQ s.gens mx1 mn1 s.fixedQg, s.limited ++ (mx1 ++ mn1)⟩ := by
    unfold convertCore
    rw [if_neg hC]
  refine ⟨?_, ?_, ?_, by decide, by decide⟩
  · rw [hcc]
    rfl
  · intro i hm hbus
    rw [hcc]
    show (bget (pqFold (mx1 ++ mn1) (convBG s mx1 mn1).2 (convBG s mx1 mn1).1)
        ((gget s.gens i).bus)).btype = PQ
    have hany : ((mx1 ++ mn1).any (fun i2 =>
        (gget (convBG s mx1 mn1).2 i2).bus == (gget s.gens i).bus)) = true := by
      rw [List.any_eq_true]
      refine ⟨i, hm, ?_⟩
      rw [beq_iff_eq, (gget_convBG_fields s mx1 mn1 i).1]
    rw [pqFold_btype, if_pos ⟨by rw [convBG_fst_length]; exact hbus, hany⟩]
  · rw [hcc]
    rfl

/-- C10 witness: the single-slack fixture satisfies the guard hypothesis
and the pass succeeds. -/
theorem C10_witness :
    sC10w.ref.length ≤ 1 ∧ isOk (convertCore sC10w [0] []) = true :=
  ⟨by decide, (C10_single_slack_converted_like_any_other sC10w [0] [] (by decide)).1⟩

theorem pqFold_length (sel : List Nat) (gens : List Gen) (buses : List Bus) :
    (pqFold sel gens buses).length = buses.length :=
  foldl_len _ (fun _ _ => lmodify_length _ _ _) sel buses

theorem pqFold_pdqd (sel : List Nat) :
    ∀ (gens : List Gen) (buses : List Bus) (b : Nat),
      (bget (pqFold sel gens buses) b).pd = (bget buses b).pd ∧
      (bget (pqFold sel gens buses) b).qd = (bget buses b).qd := by
  induction sel with
  | nil => intro gens buses b; exact ⟨rfl, rfl⟩
  | cons i sel ih =>
    intro gens buses b
    have h1 : pqFold (i :: sel) gens buses
        = pqFold sel gens (lmodify (fun bb => { bb with btype := PQ })
            ((gget gens i).bus) buses) := rfl
    have hb1 : bget (lmodify (fun bb => { bb with btype := PQ }) ((gget gens i).bus) buses) b
        = if b = (gget gens i).bus ∧ b < buses.length then { bget buses b with btype := PQ }
          else bget buses b := getD_lmodify _ _ _ _ _
    rw [h1, (ih _ _ _).1, (ih _ _ _).2, hb1]
    by_cases hc : b = (gget gens i).bus ∧ b < buses.length
    · rw [if_pos hc]; exact ⟨rfl, rfl⟩
    · rw [if_neg hc]; exact ⟨rfl, rfl⟩

theorem violations_fst_mem (gens : List Gen) (i : Nat) (h : i ∈ (violations gens).1) :
    i < gens.length ∧ (gget gens i).status = true := by
  simp only [violations] at h
  rw [List.mem_filter, List.mem_range] at h
  refine ⟨h.1, ?_⟩
  have h2 := h.2
  simp only [Bool.and_eq_true] at h2
  exact h2.1

theorem violations_snd_mem (gens : List Gen) (i : Nat) (h : i ∈ (violations gens).2) :
    i < gens.length ∧ (gget gens i).status = true := by
  simp only [violations] at h
  rw [List.mem_filter, List.mem_range] at h
  refine ⟨h.1, ?_⟩
  have h2 := h.2
  simp only [Bool.and_eq_true] at h2
  exact h2.1

theorem selectWorst_ok (gens : List Gen) (mx mn mx1 mn1 : List Nat)
    (h : selectWorst gens mx mn = Except.ok (mx1, mn1)) :
    (∀ i ∈ mx1, i ∈ mx) ∧ (∀ i ∈ mn1, i ∈ mn) := by
  unfold selectWorst at h
  by_cases hk : mx.length < argmax (mx.map (qgOver gens) ++ mn.map (qgUnder gens))
  · rw [if_pos hk] at h
    cases hg : mn.get? (argmax (mx.map (qgOver gens) ++ mn.map (qgUnder gens)) - mx.length) with
    | none => rw [hg] at h; cases h
    | some j =>
      rw [hg] at h
      have hj : j ∈ mn := List.get?_mem hg
      have h2 : (([] : List Nat), [j]) = (mx1, mn1) := by injection h
      have h3 : ([] : List Nat) = mx1 := congrArg Prod.fst h2
      have h4 : [j] = mn1 := congrArg Prod.snd h2
      constructor
      · intro i hi
        rw [← h3] at hi
        exact absurd hi (List.not_mem_nil i)
      · intro i hi
        rw [← h4] at hi
        rw [List.mem_singleton.mp hi]
        exact hj
  · rw [if_neg hk] at h
    cases hg : mx.get? (argmax (mx.map (qgOver gens) ++ mn.map (qgUnder gens))) with
    | none => rw [hg] at h; cases h
    | some j =>
      rw [hg] at h
      have hj : j ∈ mx := List.get?_mem hg
      have h2 : ([j], ([] : List Nat)) = (mx1, mn1) := by injection h
      have h3 : [j] = mx1 := congrArg Prod.fst h2
      have h4 : ([] : List Nat) = mn1 := congrArg Prod.snd h2
      constructor
      · intro i hi
        rw [← h3] at hi
        rw [List.mem_singleton.mp hi]
        exact hj
      · intro i hi
        rw [← h4] at hi
        exact absurd hi (List.not_mem_nil i)

theorem gget_convBG_status_mem (s : LoopState) (mx1 mn1 : List Nat) (j : Nat)
    (hj : j ∈ mx1 ++ mn1) (hl : j < s.gens.length) :
    (gget (convBG s mx1 mn1).2 j).status = false := by
  rw [convBG_snd, offFold_gget,
    if_pos ⟨hj, by simp only [convGens]; rw [setQg_length]; exact hl⟩]

theorem gget_convBG_status_not_mem (s : LoopState) (mx1 mn1 : List Nat) (j : Nat)
    (hj : j ∉ mx1 ++ mn1) :
    (gget (convBG s mx1 mn1).2 j).status = (gget s.gens j).status := by
  rw [convBG_snd, offFold_gget, if_neg (fun hc => hj hc.1)]
  simp only [convGens]
  exact (gget_setQg_fields _ _ _ _).2.2

theorem Inv_step (step : List Bus × List Gen → (List Bus × List Gen) × Bool)
    (hd : stepPreservesDemand step) (hs : stepPreservesShape step)
    (ho : stepPreservesOffGens step) (buses0 : List Bus) (ng0 : Nat) (s : LoopState)
    (hinv : Inv buses0 ng0 s) : Inv buses0 ng0 (stepState step s) := by
  obtain ⟨h1, h2, h3, h4, h5, h6, h7⟩ := hinv
  have hbl : (stepState step s).buses.length = s.buses.length :=
    (hs (s.buses, s.gens)).1.1
  have hgl : (stepState step s).gens.length = s.gens.length :=
    (hs (s.buses, s.gens)).1.2
  have hgb : ∀ i, (gget (stepState step s).gens i).bus = (gget s.gens i).bus :=
    (hs (s.buses, s.gens)).2
  refine ⟨hbl.trans h1, hgl.trans h2, ?_, h4, ?_, ?_, ?_⟩
  · intro i hi
    rw [hgb i, hbl]
    exact h3 i hi
  · intro i hi
    exact (ho (s.buses, s.gens) i (h5 i hi)).2
  · intro b
    have hpd : pdSum s.limited (stepState step s).gens b = pdSum s.limited s.gens b :=
      pdSum_congr _ _ _
        (fun i hi => ⟨hgb i, (ho (s.buses, s.gens) i (h5 i hi)).1⟩) b
    have hsb : (stepState step s).buses = (step (s.buses, s.gens)).1.1 := rfl
    have hsl : (stepState step s).limited = s.limited := rfl
    rw [hsb, hsl, (hd (s.buses, s.gens) b).1, hpd]
    exact h6 b
  · intro b
    have hqd : fqSum s.limited (stepState step s).gens s.fixedQg b
        = fqSum s.limited s.gens s.fixedQg b :=
      fqSum_congr _ _ _ _ _ (fun i _ => hgb i) (fun i _ => rfl) b
    have hsb : (stepState step s).buses = (step (s.buses, s.gens)).1.1 := rfl
    have hsl : (stepState step s).limited = s.limited := rfl
    have hsf : (stepState step s).fixedQg = s.fixedQg := rfl
    rw [hsb, hsl, hsf, (hd (s.buses, s.gens) b).2, hqd]
    exact h7 b

theorem convertCore_ok_elim (s : LoopState) (mx1 mn1 : List Nat) (s2 : LoopState)
    (hcc : convertCore s mx1 mn1 = Except.ok s2) :
    s2.buses = pqFold (mx1 ++ mn1) (convBG s mx1 mn1).2 (convBG s mx1 mn1).1 ∧
    s2.gens = (convBG s mx1 mn1).2 ∧
    s2.fixedQg = bindingQ s.gens mx1 mn1 s.fixedQg ∧
    s2.limited = s.limited ++ (mx1 ++ mn1) := by
  unfold convertCore at hcc
  by_cases hC : 1 < s.ref.length ∧ ((mx1 ++ mn1).any (fun i =>
      (bget (convBG s mx1 mn1).1 (gget (convBG s mx1 mn1).2 i).bus).btype == REF)) = true
  · rw [if_pos hC] at hcc
    cases hcc
  · rw [if_neg hC] at hcc
    injection hcc with h
    rw [← h]
    exact ⟨rfl, rfl, rfl, rfl⟩

theorem bget_convBG_pdqd (s : LoopState) (mx1 mn1 : List Nat) (b : Nat)
    (hsel : ∀ i ∈ mx1 ++ mn1, i < s.gens.length ∧ (gget s.gens i).bus < s.buses.length) :
    (bget (convBG s mx1 mn1).1 b).pd = (bget s.buses b).pd - pdSum (mx1 ++ mn1) s.gens b ∧
    (bget (convBG s mx1 mn1).1 b).qd
      = (bget s.buses b).qd
        - fqSum (mx1 ++ mn1) s.gens (bindingQ s.gens mx1 mn1 s.fixedQg) b := by
  have hbus1 : ∀ i ∈ mx1 ++ mn1, (gget (convGens s mx1 mn1) i).bus < s.buses.length := by
    intro i hm
    simp only [convGens]
    rw [(gget_setQg_fields _ _ _ _).1]
    exact (hsel i hm).2
  have hfold := convFold_fst (mx1 ++ mn1) s.buses (convGens s mx1 mn1) hbus1 b
  have hpdc : pdSum (mx1 ++ mn1) (convGens s mx1 mn1) b = pdSum (mx1 ++ mn1) s.gens b := by
    refine pdSum_congr _ _ _ (fun i _ => ?_) b
    simp only [convGens]
    exact ⟨(gget_setQg_fields _ _ _ _).1, (gget_setQg_fields _ _ _ _).2.1⟩
  have hqdc : qdSum (mx1 ++ mn1) (convGens s mx1 mn1) b
      = fqSum (mx1 ++ mn1) s.gens (bindingQ s.gens mx1 mn1 s.fixedQg) b := by
    have h1 : qdSum (mx1 ++ mn1) (convGens s mx1 mn1) b
        = fqSum (mx1 ++ mn1) (convGens s mx1 mn1) (bindingQ s.gens mx1 mn1 s.fixedQg) b := by
      refine qdSum_eq_fqSum _ _ _ _ (fun i hm => ?_)
      simp only [convGens]
      rw [setQg_gget, if_pos ⟨hm, (hsel i hm).1⟩]
    rw [h1]
    refine fqSum_congr _ _ _ _ _ (fun i _ => ?_) (fun i _ => rfl) b
    simp only [convGens]
    exact (gget_setQg_fields _ _ _ _).1
  have hfst : bget (convBG s mx1 mn1).1 b
      = { bget s.buses b with
            pd := (bget s.buses b).pd - pdSum (mx1 ++ mn1) (convGens s mx1 mn1) b,
            qd := (bget s.buses b).qd - qdSum (mx1 ++ mn1) (convGens s mx1 mn1) b } := hfold
  rw [hfst, hpdc, hqdc]
  exact ⟨rfl, rfl⟩

theorem Inv_convertCore (buses0 : List Bus) (ng0 : Nat) (s : LoopState)
    (mx1 mn1 : List Nat) (s2 : LoopState)
    (hinv : Inv buses0 ng0 s)
    (hmx : ∀ i ∈ mx1, i < s.gens.length ∧ (gget s.gens i).status = true)
    (hmn : ∀ i ∈ mn1, i < s.gens.length ∧ (gget s.gens i).status = true)
    (hcc : convertCore s mx1 mn1 = Except.ok s2) :
    Inv buses0 ng0 s2 := by
  obtain ⟨h1, h2, h3, h4, h5, h6, h7⟩ := hinv
  obtain ⟨e1, e2, e3, e4⟩ := convertCore_ok_elim s mx1 mn1 s2 hcc
  have hselst : ∀ i ∈ mx1 ++ mn1, i < s.gens.length ∧ (gget s.gens i).status = true := by
    intro i hi
    rcases List.mem_append.mp hi with h | h
    · exact hmx i h
    · exact hmn i h
  have hsel : ∀ i ∈ mx1 ++ mn1,
      i < s.gens.length ∧ (gget s.gens i).bus < s.buses.length := by
    intro i hi
    refine ⟨(hselst i hi).1, ?_⟩
    refine h3 i ?_
    rw [← h2]
    exact (hselst i hi).1
  have hnotsel : ∀ i ∈ s.limited, i ∉ mx1 ++ mn1 := by
    intro i hi hmem
    have hfalse := h5 i hi
    have htrue := (hselst i hmem).2
    rw [hfalse] at htrue
    cases htrue
  have hgb : ∀ j, (gget s2.gens j).bus = (gget s.gens j).bus := by
    intro j
    rw [e2]
    exact (gget_convBG_fields s mx1 mn1 j).1
  have hgp : ∀ j, (gget s2.gens j).pg = (gget s.gens j).pg := by
    intro j
    rw [e2]
    exact (gget_convBG_fields s mx1 mn1 j).2
  have hbl : s2.buses.length = s.buses.length := by
    rw [e1, pqFold_length, convBG_fst_length]
  have hgl : s2.gens.length = s.gens.length := by
    rw [e2, convBG_snd_length]
  have hfqold : ∀ i ∈ s.limited, s2.fixedQg i = s.fixedQg i := by
    intro i hi
    have hnm := hnotsel i hi
    have hn1 : i ∉ mn1 := fun hc => hnm (List.mem_append.mpr (Or.inr hc))
    have hn2 : i ∉ mx1 := fun hc => hnm (List.mem_append.mpr (Or.inl hc))
    rw [e3]
    simp only [bindingQ]
    rw [if_neg hn1, if_neg hn2]
  refine ⟨hbl.trans h1, hgl.trans h2, ?_, ?_, ?_, ?_, ?_⟩
  · intro i hi
    rw [hgb i, hbl]
    exact h3 i hi
  · intro i hi
    rw [e4] at hi
    rcases List.mem_append.mp hi with h | h
    · exact h4 i h
    · rw [← h2]
      exact (hselst i h).1
  · intro i hi
    rw [e4] at hi
    rcases List.mem_append.mp hi with h | h
    · rw [e2, gget_convBG_status_not_mem s mx1 mn1 i (hnotsel i h)]
      exact h5 i h
    · rw [e2, gget_convBG_status_mem s mx1 mn1 i h (hselst i h).1]
  · intro b
    have hpq := (pqFold_pdqd (mx1 ++ mn1) (convBG s mx1 mn1).2 (convBG s mx1 mn1).1 b).1
    have hcb := (bget_convBG_pdqd s mx1 mn1 b hsel).1
    have hsplit : pdSum s2.limited s2.gens b
        = pdSum s.limited s.gens b + pdSum (mx1 ++ mn1) s.gens b := by
      rw [e4, pdSum_append]
      have hA : pdSum s.limited s2.gens b = pdSum s.limited s.gens b :=
        pdSum_congr _ _ _ (fun i _ => ⟨hgb i, hgp i⟩) b
      have hB : pdSum (mx1 ++ mn1) s2.gens b = pdSum (mx1 ++ mn1) s.gens b :=
        pdSum_congr _ _ _ (fun i _ => ⟨hgb i, hgp i⟩) b
      rw [hA, hB]
    have hlhs : (bget s2.buses b).pd
        = (bget s.buses b).pd - pdSum (mx1 ++ mn1) s.gens b := by
      rw [e1, hpq, hcb]
    rw [hlhs, hsplit, ← h6 b]
    ring
  · intro b
    have hpq := (pqFold_pdqd (mx1 ++ mn1) (convBG s mx1 mn1).2 (convBG s mx1 mn1).1 b).2
    have hcb := (bget_convBG_pdqd s mx1 mn1 b hsel).2
    have hsplit : fqSum s2.limited s2.gens s2.fixedQg b
        = fqSum s.limited s.gens s.fixedQg b
          + fqSum (mx1 ++ mn1) s.gens (bindingQ s.gens mx1 mn1 s.fixedQg) b := by
      rw [e4, fqSum_append]
      have hA : fqSum s.limited s2.gens s2.fixedQg b
          = fqSum s.limited s.gens s.fixedQg b :=
        fqSum_congr _ _ _ _ _ (fun i _ => hgb i) (fun i hi => hfqold i hi) b
      have hB : fqSum (mx1 ++ mn1) s2.gens s2.fixedQg b
          = fqSum (mx1 ++ mn1) s.gens (bindingQ s.gens mx1 mn1 s.fixedQg) b :=
        fqSum_congr _ _ _ _ _ (fun i _ => hgb i) (fun i _ => by rw [e3]) b
      rw [hA, hB]
    have hlhs : (bget s2.buses b).qd
        = (bget s.buses b).qd
          - fqSum (mx1 ++ mn1) s.gens (bindingQ s.gens mx1 mn1 s.fixedQg) b := by
      rw [e1, hpq, hcb]
    rw [hlhs, hsplit, ← h7 b]
    ring

theorem Inv_convertPass (buses0 : List Bus) (ng0 : Nat) (s s2 : LoopState) (qlim : Nat)
    (hinv : Inv buses0 ng0 s)
    (hcp : convertPass qlim s (violations s.gens).1 (violations s.gens).2 = Except.ok s2) :
    Inv buses0 ng0 s2 := by
  unfold convertPass at hcp
  by_cases hq : qlim = 2
  · rw [if_pos hq] at hcp
    cases hsw : selectWorst s.gens (violations s.gens).1 (violations s.gens).2 with
    | error e =>
      rw [hsw] at hcp
      cases hcp
    | ok p =>
      rw [hsw] at hcp
      obtain ⟨mx1, mn1⟩ := p
      have hsub := selectWorst_ok s.gens _ _ mx1 mn1 hsw
      refine Inv_convertCore buses0 ng0 s mx1 mn1 s2 hinv ?_ ?_ hcp
      · intro i hi
        exact violations_fst_mem s.gens i (hsub.1 i hi)
      · intro i hi
        exact violations_snd_mem s.gens i (hsub.2 i hi)
  · rw [if_neg hq] at hcp
    refine Inv_convertCore buses0 ng0 s _ _ s2 hinv ?_ ?_ hcp
    · intro i hi
      exact violations_fst_mem s.gens i hi
    · intro i hi
      exact violations_snd_mem s.gens i hi

theorem qlimLoop_inv (step : List Bus × List Gen → (List Bus × List Gen) × Bool)
    (hd : stepPreservesDemand step) (hs : stepPreservesShape step)
    (ho : stepPreservesOffGens step) (qlim : Nat) (buses0 : List Bus) (ng0 : Nat) :
    ∀ (fuel : Nat) (s : LoopState) (r : LoopState × Bool),
      Inv buses0 ng0 s → qlimLoop step qlim fuel s = Except.ok (some r) →
      Inv buses0 ng0 r.1 := by
  intro fuel
  induction fuel with
  | zero =>
    intro s r _ hrun
    simp only [qlimLoop] at hrun
    injection hrun with h
    exact Option.noConfusion h
  | succ fuel ih =>
    intro s r hinv hrun
    have hinv1 : Inv buses0 ng0 (stepState step s) :=
      Inv_step step hd hs ho buses0 ng0 s hinv
    simp only [qlimLoop] at hrun
    by_cases hv : nviol (stepState step s).gens ≠ 0
    · rw [if_pos hv] at hrun
      by_cases hpv : (stepState step s).pv.length = 0
      · rw [if_pos hpv] at hrun
        injection hrun with h
        injection h with h2
        rw [← h2]
        exact hinv1
      · rw [if_neg hpv] at hrun
        cases hcp : convertPass qlim (stepState step s)
            (violations (stepState step s).gens).1 (violations (stepState step s).gens).2 with
        | error e =>
          rw [hcp] at hrun
          exact absurd hrun (by simp [Except.bind])
        | ok s2 =>
          rw [hcp] at hrun
          have hinv2 : Inv buses0 ng0 s2 :=
            Inv_convertPass buses0 ng0 (stepState step s) s2 qlim hinv1 hcp
          exact ih s2 r hinv2 hrun
    · rw [if_neg hv] at hrun
      injection hrun with h
      injection h with h2
      rw [← h2]
      exact hinv1

/-- C6.  Injection conservation.  Part one: converting one gen subtracts
exactly its active and (already binding) reactive output from its bus's
demand and turns it off.  Part two: for any solve step satisfying the
spec's step contract, whenever the whole enforcement run returns a result,
every bus's demand is restored to its original value — the subtract during
conversion and the add during the final restoration cancel exactly. -/
theorem C6_injection_conservation
    (step : List Bus × List Gen → (List Bus × List Gen) × Bool)
    (qlim fuel : Nat) (buses : List Bus) (gens : List Gen)
    (hd : stepPreservesDemand step) (hs : stepPreservesShape step)
    (ho : stepPreservesOffGens step)
    (hwf : ∀ i, i < gens.length → (gget gens i).bus < buses.length) :
    (∀ (bg : List Bus × List Gen) (i : Nat), i < bg.2.length →
        (gget bg.2 i).bus < bg.1.length →
        (bget (convertOne bg i).1 ((gget bg.2 i).bus)).pd
            = (bget bg.1 ((gget bg.2 i).bus)).pd - (gget bg.2 i).pg ∧
        (bget (convertOne bg i).1 ((gget bg.2 i).bus)).qd
            = (bget bg.1 ((gget bg.2 i).bus)).qd - (gget bg.2 i).qg ∧
        (gget (convertOne bg i).2 i).status = false) ∧
    (isOkSome (run_ac_pf_with_qlims_enforced step qlim fuel buses gens) = true →
      ∀ b,
        (bget (finalBuses (run_ac_pf_with_qlims_enforced step qlim fuel buses gens) buses) b).pd
            = (bget buses b).pd ∧
        (bget (finalBuses (run_ac_pf_with_qlims_enforced step qlim fuel buses gens) buses) b).qd
            = (bget buses b).qd) := by
  constructor
  · intro bg i hlen hbus
    have hfst := convertOne_fst_bget bg.1 bg.2 i hbus ((gget bg.2 i).bus)
    rw [if_pos rfl] at hfst
    refine ⟨?_, ?_, ?_⟩
    · rw [show (convertOne bg i).1 = (convertOne (bg.1, bg.2) i).1 from rfl, hfst]
    · rw [show (convertOne bg i).1 = (convertOne (bg.1, bg.2) i).1 from rfl, hfst]
    · rw [show (convertOne bg i).2 = (convertOne (bg.1, bg.2) i).2 from rfl,
          convertOne_snd, gget, getD_lmodify, if_pos ⟨rfl, hlen⟩]
  · intro hok b
    cases hloop : qlimLoop step qlim fuel
        ⟨buses, gens, (bustypes buses gens).1, (bustypes buses gens).2.1,
         (bustypes buses gens).2.2, fun _ => 0, []⟩ with
    | error e =>
      have hrun : run_ac_pf_with_qlims_enforced step qlim fuel buses gens
          = Except.error e := by
        unfold run_ac_pf_with_qlims_enforced
        rw [hloop]
        rfl
      rw [hrun] at hok
      exact absurd hok (by simp [isOkSome])
    | ok o =>
      cases o with
      | none =>
        have hrun : run_ac_pf_with_qlims_enforced step qlim fuel buses gens
            = Except.ok none := by
          unfold run_ac_pf_with_qlims_enforced
          rw [hloop]
          rfl
        rw [hrun] at hok
        exact absurd hok (by simp [isOkSome])
      | some p =>
        have hrun : run_ac_pf_with_qlims_enforced step qlim fuel buses gens
            = Except.ok (some (restoreAll p.1, p.2)) := by
          unfold run_ac_pf_with_qlims_enforced
          rw [hloop]
          rfl
        have hfb : finalBuses (run_ac_pf_with_qlims_enforced step qlim fuel buses gens) buses
            = (restoreAll p.1).buses := by
          rw [hrun]
          rfl
        have hinv0 : Inv buses gens.length
            ⟨buses, gens, (bustypes buses gens).1, (bustypes buses gens).2.1,
             (bustypes buses gens).2.2, fun _ => 0, []⟩ := by
          refine ⟨rfl, rfl, hwf, ?_, ?_, ?_, ?_⟩
          · intro i hi
            exact absurd hi (List.not_mem_nil i)
          · intro i hi
            exact absurd hi (List.not_mem_nil i)
          · intro b2
            rw [pdSum_nil, add_zero]
          · intro b2
            rw [fqSum_nil, add_zero]
        have hinvE : Inv buses gens.length p.1 :=
          qlimLoop_inv step hd hs ho qlim buses gens.length fuel _ p hinv0 hloop
        obtain ⟨h1, h2, h3, h4, h5, h6, h7⟩ := hinvE
        have hbus : ∀ i ∈ p.1.limited, (gget p.1.gens i).bus < p.1.buses.length :=
          fun i hi => h3 i (h4 i hi)
        have hlen : ∀ i ∈ p.1.limited, i < p.1.gens.length := by
          intro i hi
          rw [h2]
          exact h4 i hi
        have hres := restoreAll_buses p.1 hbus hlen b
        rw [hfb]
        constructor
        · rw [hres.1]
          exact h6 b
        · rw [hres.2]
          exact h7 b

/-- C6 witness: the identity step satisfies the step contract, and on the
two-bus fixture (no violations, so zero conversions) the run succeeds with
bus 1's demand unchanged. -/
theorem C6_witness :
    stepPreservesDemand stepId ∧ stepPreservesShape stepId ∧ stepPreservesOffGens stepId ∧
    (∀ i, i < gensW.length → (gget gensW i).bus < busesW.length) ∧
    isOkSome (run_ac_pf_with_qlims_enforced stepId 1 2 busesW gensW) = true ∧
    (bget (finalBuses (run_ac_pf_with_qlims_enforced stepId 1 2 busesW gensW) busesW) 1).pd
      = (bget busesW 1).pd :=
  ⟨fun _ _ => ⟨rfl, rfl⟩, fun _ => ⟨⟨rfl, rfl⟩, fun _ => rfl⟩, fun _ _ h => ⟨rfl, h⟩,
   by decide, by decide,
   ((C6_injection_conservation stepId 1 2 busesW gensW (fun _ _ => ⟨rfl, rfl⟩)
       (fun _ => ⟨⟨rfl, rfl⟩, fun _ => rfl⟩) (fun _ _ h => ⟨rfl, h⟩) (by decide)).2
     (by decide) 1).1⟩

end PandapowerPF

